import Mathlib

/-!
The grape request authorisation gate (auth.go).

A shallow embedding of `Auth.RequestHandler` and `Auth.checkAccount` of
`auth.go`, together with the library behaviour they rely on (Go regular
expressions of the shapes used in the file, `bufio.Scanner` line splitting,
`encoding/json` decoding into the two index structs, the expiring cache).

Go strings and byte slices are lists of characters.
-/

namespace Grape

/-- Text is a Go string or byte slice. -/
abbrev Text := List Char

/-- The double quote character. -/
def dq : Char := Char.ofNat 34

/-- Go strings.TrimPrefix: s without the leading p, or s itself. -/
def TrimPrefix (s p : Text) : Text :=
  if p.isPrefixOf s then s.drop p.length else s

/-- Go strings.TrimSuffix: s without the trailing suf, or s itself. -/
def TrimSuffix (s suf : Text) : Text :=
  if suf.isSuffixOf s then s.take (s.length - suf.length) else s

/-- Go slice expression s[lo:hi] on a string; none is the run-time panic
"slice bounds out of range". -/
def sliceStr (s : Text) (lo hi : Int) : Option Text :=
  if 0 ≤ lo ∧ lo ≤ hi ∧ hi ≤ (s.length : Int) then
    some ((s.take hi.toNat).drop lo.toNat)
  else none

/-! ## Regular expressions

The six patterns of auth.go are sequences of literal characters, one
character class, a lazy star of a class (`.*?`), a greedy plus of a class
(`\S+`) and the end-of-text assertion, optionally anchored at the start.
`matchHere` is the leftmost-first (backtracking priority) semantics that Go's
regexp package implements for such patterns. -/

/-- One element of a pattern. -/
inductive Item where
  | lit (c : Char)
  | cls (p : Char → Bool)
  | lazyStar (p : Char → Bool)
  | greedyPlus (p : Char → Bool)
  | eol

/-- A compiled pattern: whether it starts with `^`, and its elements. -/
structure Regexp where
  anchored : Bool
  items : List Item

/-- The class `.`: any character but the newline. -/
def dot (c : Char) : Bool := c != '\n'

/-- The class `\S`: any character outside `[\t\n\f\r ]`. -/
def nonSpace (c : Char) : Bool :=
  !(c == '\t' || c == '\n' || c == Char.ofNat 12 || c == '\r' || c == ' ')

/-- The class `[a-z0-9]`. -/
def lowerAlnum (c : Char) : Bool :=
  ('a'.toNat ≤ c.toNat && c.toNat ≤ 'z'.toNat) || ('0'.toNat ≤ c.toNat && c.toNat ≤ '9'.toNat)

/-- Lazy star followed by the continuation k: stop as early as k allows. -/
def lazyStarAux (p : Char → Bool) (k : Text → Option Text) : Text → Option Text
  | [] => k []
  | x :: s =>
    match k (x :: s) with
    | some m => some m
    | none => if p x then (lazyStarAux p k s).map (fun m => x :: m) else none

/-- Greedy plus followed by the continuation k: take as many as k allows. -/
def greedyPlusAux (p : Char → Bool) (k : Text → Option Text) : Text → Option Text
  | [] => none
  | x :: s =>
    if p x then
      match greedyPlusAux p k s with
      | some m => some (x :: m)
      | none => (k s).map (fun m => x :: m)
    else none

/-- The text matched by the items at the start of s, if they match there. -/
def matchHere : List Item → Text → Option Text
  | [] => fun _ => some []
  | Item.lit c :: r => fun s =>
    match s with
    | x :: s1 => if x = c then (matchHere r s1).map (fun m => x :: m) else none
    | [] => none
  | Item.cls p :: r => fun s =>
    match s with
    | x :: s1 => if p x then (matchHere r s1).map (fun m => x :: m) else none
    | [] => none
  | Item.lazyStar p :: r => fun s => lazyStarAux p (matchHere r) s
  | Item.greedyPlus p :: r => fun s => greedyPlusAux p (matchHere r) s
  | Item.eol :: r => fun s =>
    match s with
    | [] => matchHere r []
    | _ :: _ => none

/-- The leftmost match of the items anywhere in s. -/
def findAt (items : List Item) : Text → Option Text
  | [] => matchHere items []
  | x :: s =>
    match matchHere items (x :: s) with
    | some m => some m
    | none => findAt items s

/-- The leftmost-first match of the pattern in s. -/
def Regexp.find (r : Regexp) (s : Text) : Option Text :=
  if r.anchored then matchHere r.items s else findAt r.items s

/-- Go Regexp.Match / MatchString. -/
def Regexp.Match (r : Regexp) (s : Text) : Bool := (r.find s).isSome

/-- Go Regexp.FindString: the matched text, or the empty string. -/
def Regexp.FindString (r : Regexp) (s : Text) : Text := (r.find s).getD []

/-- The literal `"index"` (with its quotes). -/
def indexLit : List Item :=
  (dq :: "index".toList ++ [dq]).map Item.lit

/-- The pattern `"index".*?:`. -/
def indexRxp : Regexp := ⟨false, indexLit ++ [Item.lazyStar dot, Item.lit ':']⟩

/-- The pattern `"index".*?:.*?"`. -/
def indexSingleRxp : Regexp :=
  ⟨false, indexLit ++ [Item.lazyStar dot, Item.lit ':', Item.lazyStar dot, Item.lit dq]⟩

/-- The pattern `"index".*?:.*?\[`. -/
def indexArrayRxp : Regexp :=
  ⟨false, indexLit ++ [Item.lazyStar dot, Item.lit ':', Item.lazyStar dot, Item.lit '[']⟩

/-- The pattern `^[a-z0-9].*?\-`. -/
def accountRxp : Regexp := ⟨true, [Item.cls lowerAlnum, Item.lazyStar dot, Item.lit '-']⟩

/-- The pattern `^\/\S+\/_mapping$`. -/
def mappingRxp : Regexp :=
  ⟨true, Item.lit '/' :: Item.greedyPlus nonSpace :: ("/_mapping".toList.map Item.lit ++ [Item.eol])⟩

/-- The pattern `^\/.*?-`. -/
def accountPathRxp : Regexp := ⟨true, [Item.lit '/', Item.lazyStar dot, Item.lit '-']⟩

/-! ## bufio.Scanner with the default ScanLines split function -/

/-- Number of bytes of the UTF-8 encoding of a character. -/
def byteLen (c : Char) : Nat :=
  if c.toNat < 128 then 1 else if c.toNat < 2048 then 2 else if c.toNat < 65536 then 3 else 4

/-- Number of bytes of a text. -/
def byteSize (t : Text) : Nat := (t.map byteLen).sum

/-- The bufio.MaxScanTokenSize constant: the scanner buffer never grows beyond it. -/
def MaxScanTokenSize : Nat := 64 * 1024

/-- The body cut at every newline; a final unterminated piece is kept when
it is not empty. -/
def splitLines : Text → List Text
  | [] => []
  | c :: s =>
    if c = '\n' then [] :: splitLines s
    else
      match splitLines s with
      | [] => [[c]]
      | l :: ls => (c :: l) :: ls

/-- The dropCR helper of bufio: one trailing carriage return is removed. -/
def dropCR (l : Text) : Text :=
  if l.getLast? = some '\r' then l.dropLast else l

/-- A piece fits when the scanner finds its end before the buffer, capped at
MaxScanTokenSize bytes, is full. -/
def fitsBuffer (l : Text) : Bool := decide (byteSize l < MaxScanTokenSize)

/-- The tokens that successive Scan calls yield: Scan returns false (with
ErrTooLong) at the first piece that does not fit, and at the end. -/
def scanLines (body : Text) : List Text :=
  ((splitLines body).takeWhile fitsBuffer).map dropCR

/-! ## encoding/json: decoding one line into IndexSingle or IndexArray -/

/-- A JSON value; the digits of a number play no role here. -/
inductive JVal where
  | null
  | bool (b : Bool)
  | num
  | str (s : Text)
  | arr (xs : List JVal)
  | obj (kvs : List (Text × JVal))

/-- JSON insignificant whitespace. -/
def isJsonSpace (c : Char) : Bool := c == ' ' || c == '\t' || c == '\r' || c == '\n'

/-- Skip JSON whitespace. -/
def skipWs (s : Text) : Text := s.dropWhile isJsonSpace

/-- Value of a hexadecimal digit. -/
def hexVal (c : Char) : Option Nat :=
  if '0'.toNat ≤ c.toNat ∧ c.toNat ≤ '9'.toNat then some (c.toNat - '0'.toNat)
  else if 'a'.toNat ≤ c.toNat ∧ c.toNat ≤ 'f'.toNat then some (c.toNat - 'a'.toNat + 10)
  else if 'A'.toNat ≤ c.toNat ∧ c.toNat ≤ 'F'.toNat then some (c.toNat - 'A'.toNat + 10)
  else none

/-- The four hexadecimal digits after a backslash-u, and the rest. -/
def getu4 (s : Text) : Option (Nat × Text) :=
  match s with
  | a :: b :: c :: d :: r =>
    match hexVal a, hexVal b, hexVal c, hexVal d with
    | some x, some y, some z, some w => some (((x * 16 + y) * 16 + z) * 16 + w, r)
    | _, _, _, _ => none
  | _ => none

/-- One unit of a string literal: a plain character or a backslash-u escape. -/
inductive StrUnit where
  | ch (c : Char)
  | esc (u : Nat)

/-- The units of a string literal up to its closing quote, and the rest. An
unescaped control character or an unknown escape is a syntax error. -/
def scanStr : Nat → Text → Option (List StrUnit × Text)
  | 0, _ => none
  | _ + 1, [] => none
  | n + 1, c :: s =>
    if c = dq then some ([], s)
    else if c = '\\' then
      match s with
      | [] => none
      | e :: r =>
        if e = 'u' then
          match getu4 r with
          | some (u, r1) => (scanStr n r1).map (fun p => (StrUnit.esc u :: p.1, p.2))
          | none => none
        else
          let one (x : Char) := (scanStr n r).map (fun p => (StrUnit.ch x :: p.1, p.2))
          if e = dq then one dq
          else if e = '\\' then one '\\'
          else if e = '/' then one '/'
          else if e = 'b' then one (Char.ofNat 8)
          else if e = 'f' then one (Char.ofNat 12)
          else if e = 'n' then one '\n'
          else if e = 'r' then one '\r'
          else if e = 't' then one '\t'
          else none
    else if c.toNat < 32 then none
    else (scanStr n s).map (fun p => (StrUnit.ch c :: p.1, p.2))

/-- The replacement character U+FFFD. -/
def replacementChar : Char := Char.ofNat 65533

/-- The unquote step: a high surrogate escape directly followed by a low
surrogate escape is one character, any other surrogate is U+FFFD. -/
def unquoteUnits : List StrUnit → Text
  | [] => []
  | StrUnit.ch c :: r => c :: unquoteUnits r
  | [StrUnit.esc u] =>
    [if 55296 ≤ u ∧ u < 57344 then replacementChar else Char.ofNat u]
  | StrUnit.esc u :: StrUnit.ch c :: r =>
    (if 55296 ≤ u ∧ u < 57344 then replacementChar else Char.ofNat u) :: c :: unquoteUnits r
  | StrUnit.esc u :: StrUnit.esc v :: r =>
    if 55296 ≤ u ∧ u < 56320 ∧ 56320 ≤ v ∧ v < 57344 then
      Char.ofNat ((u - 55296) * 1024 + (v - 56320) + 65536) :: unquoteUnits r
    else
      (if 55296 ≤ u ∧ u < 57344 then replacementChar else Char.ofNat u)
        :: unquoteUnits (StrUnit.esc v :: r)

/-- A string literal after its opening quote: the decoded text and the rest. -/
def parseString (s : Text) : Option (Text × Text) :=
  (scanStr (s.length + 1) s).map (fun p => (unquoteUnits p.1, p.2))

/-- Is the character a decimal digit. -/
def isDigit (c : Char) : Bool := '0'.toNat ≤ c.toNat && c.toNat ≤ '9'.toNat

/-- One or more digits: the rest after them. -/
def digits1 (s : Text) : Option Text :=
  match s with
  | c :: r => if isDigit c then some (r.dropWhile isDigit) else none
  | [] => none

/-- The optional fraction and exponent of a number. -/
def numberTail (s : Text) : Option Text :=
  let afterFrac : Option Text :=
    match s with
    | c :: r => if c = '.' then digits1 r else some s
    | [] => some s
  match afterFrac with
  | none => none
  | some t =>
    match t with
    | c :: r =>
      if c = 'e' ∨ c = 'E' then
        match r with
        | d :: r1 => if d = '+' ∨ d = '-' then digits1 r1 else digits1 r
        | [] => none
      else some t
    | [] => some t

/-- A JSON number: the rest after it. -/
def parseNumber (s : Text) : Option Text :=
  let body (t : Text) : Option Text :=
    match t with
    | c :: r =>
      if c = '0' then numberTail r
      else if isDigit c then numberTail (r.dropWhile isDigit)
      else none
    | [] => none
  match s with
  | c :: r => if c = '-' then body r else body s
  | [] => none

mutual
/-- A JSON value with leading whitespace: the value and the rest. -/
def parseValue : Nat → Text → Option (JVal × Text)
  | 0, _ => none
  | n + 1, s =>
    match skipWs s with
    | [] => none
    | c :: r =>
      if c = '{' then
        match skipWs r with
        | d :: r1 =>
          if d = '}' then some (JVal.obj [], r1)
          else (parseMembers n r).map (fun p => (JVal.obj p.1, p.2))
        | [] => none
      else if c = '[' then
        match skipWs r with
        | d :: r1 =>
          if d = ']' then some (JVal.arr [], r1)
          else (parseElems n r).map (fun p => (JVal.arr p.1, p.2))
        | [] => none
      else if c = dq then (parseString r).map (fun p => (JVal.str p.1, p.2))
      else if "true".toList.isPrefixOf (c :: r) then some (JVal.bool true, (c :: r).drop 4)
      else if "false".toList.isPrefixOf (c :: r) then some (JVal.bool false, (c :: r).drop 5)
      else if "null".toList.isPrefixOf (c :: r) then some (JVal.null, (c :: r).drop 4)
      else (parseNumber (c :: r)).map (fun t => (JVal.num, t))
/-- The elements of an array up to its closing bracket. -/
def parseElems : Nat → Text → Option (List JVal × Text)
  | 0, _ => none
  | n + 1, s =>
    match parseValue n s with
    | none => none
    | some (v, r) =>
      match skipWs r with
      | d :: r1 =>
        if d = ',' then (parseElems n r1).map (fun p => (v :: p.1, p.2))
        else if d = ']' then some ([v], r1)
        else none
      | [] => none
/-- The members of an object up to its closing brace. -/
def parseMembers : Nat → Text → Option (List (Text × JVal) × Text)
  | 0, _ => none
  | n + 1, s =>
    match skipWs s with
    | q :: r =>
      if q = dq then
        match parseString r with
        | none => none
        | some (key, r1) =>
          match skipWs r1 with
          | c :: r2 =>
            if c = ':' then
              match parseValue n r2 with
              | none => none
              | some (v, r3) =>
                match skipWs r3 with
                | d :: r4 =>
                  if d = ',' then (parseMembers n r4).map (fun p => ((key, v) :: p.1, p.2))
                  else if d = '}' then some ([(key, v)], r4)
                  else none
                | [] => none
            else none
          | [] => none
      else none
    | [] => none
end

/-- The whole input as one JSON value, or none on a syntax error. -/
def parseJSON (s : Text) : Option JVal :=
  match parseValue (2 * s.length + 2) s with
  | some (v, r) => if skipWs r = [] then some v else none
  | none => none

/-- The IndexSingle struct. -/
structure IndexSingle where
  Index : Text
deriving DecidableEq

/-- The IndexArray struct. -/
structure IndexArray where
  Indexes : List Text
deriving DecidableEq

/-- The two kinds of error json.Unmarshal returns: a SyntaxError, or an
UnmarshalTypeError (a JSON value that does not fit the Go type). -/
inductive JsonError where
  | invalidSyntax
  | typeMismatch
deriving DecidableEq

/-- A member key selects the struct field tagged `json:"index"`: exact match
or ASCII case-insensitive match. -/
def fieldMatches (key : Text) : Bool := key.map Char.toLower == "index".toList

/-- Decode the members of an object into IndexSingle.Index, in order: a string
is stored, null is ignored, any other value records a type error and decoding
goes on. The result is the field and whether an error was recorded. -/
def decodeSingleFields : List (Text × JVal) → Text → Bool → Text × Bool
  | [], idx, err => (idx, err)
  | (k, v) :: r, idx, err =>
    if fieldMatches k then
      match v with
      | JVal.str t => decodeSingleFields r t err
      | JVal.null => decodeSingleFields r idx err
      | _ => decodeSingleFields r idx true
    else decodeSingleFields r idx err

/-- The call json.Unmarshal(ln, &idxSingle) with idxSingle a pointer to a fresh
IndexSingle. The ok value none is the nil pointer left by the JSON text
null. -/
def UnmarshalIndexSingle (ln : Text) : Except JsonError (Option IndexSingle) :=
  match parseJSON ln with
  | none => Except.error JsonError.invalidSyntax
  | some JVal.null => Except.ok none
  | some (JVal.obj kvs) =>
    match decodeSingleFields kvs [] false with
    | (idx, false) => Except.ok (some ⟨idx⟩)
    | (_, true) => Except.error JsonError.typeMismatch
  | some _ => Except.error JsonError.typeMismatch

/-- Decode the elements of a JSON array into strings: a string is stored,
null leaves the zero value, any other value records a type error. -/
def decodeElems : List JVal → List Text × Bool
  | [] => ([], false)
  | v :: r =>
    let rest := decodeElems r
    match v with
    | JVal.str t => (t :: rest.1, rest.2)
    | JVal.null => ([] :: rest.1, rest.2)
    | _ => ([] :: rest.1, true)

/-- Decode the members of an object into IndexArray.Indexes, in order. (For a
repeated index member the model takes the elements of the last array alone.) -/
def decodeArrayFields : List (Text × JVal) → List Text → Bool → List Text × Bool
  | [], idxs, err => (idxs, err)
  | (k, v) :: r, idxs, err =>
    if fieldMatches k then
      match v with
      | JVal.arr xs => decodeArrayFields r (decodeElems xs).1 (err || (decodeElems xs).2)
      | JVal.null => decodeArrayFields r idxs err
      | _ => decodeArrayFields r idxs true
    else decodeArrayFields r idxs err

/-- The call json.Unmarshal(ln, &idxArray) with idxArray a pointer to a fresh
IndexArray. -/
def UnmarshalIndexArray (ln : Text) : Except JsonError (Option IndexArray) :=
  match parseJSON ln with
  | none => Except.error JsonError.invalidSyntax
  | some JVal.null => Except.ok none
  | some (JVal.obj kvs) =>
    match decodeArrayFields kvs [] false with
    | (idxs, false) => Except.ok (some ⟨idxs⟩)
    | (_, true) => Except.error JsonError.typeMismatch
  | some _ => Except.error JsonError.typeMismatch

/-! ## The permission cache (patrickmn/go-cache) -/

/-- A cached decision with its expiry time in nanoseconds; expiry 0 is no expiry. -/
structure CacheItem where
  Object : Bool
  Expiration : Nat
deriving DecidableEq

/-- The cache: the first entry for a key is the current one. -/
abbrev Cache := List (Text × CacheItem)

/-- The default expiration NewAuth gives the cache: one minute. -/
def DefaultExpiration : Nat := 60 * 1000000000

/-- The call cache.Get(k) at time now: an entry past its expiry is not found. -/
def Cache.Get (c : Cache) (now : Nat) (k : Text) : Option Bool :=
  match c.lookup k with
  | none => none
  | some it => if 0 < it.Expiration ∧ it.Expiration < now then none else some it.Object

/-- The call cache.Set(k, v, cache.DefaultExpiration) at time now. -/
def Cache.Set (c : Cache) (now : Nat) (k : Text) (v : Bool) : Cache :=
  (k, ⟨v, now + DefaultExpiration⟩) :: c.filter (fun e => e.1 != k)

/-! ## Auth.checkAccount -/

/-- The provision.AccessKey payload: the basic-auth name and key. -/
structure AccessKey where
  Name : Text
  Key : Text
deriving DecidableEq

/-- What HttpClient.Do returns: an error, or a response with its status code. -/
inductive DoResult where
  | fail (err : Text)
  | response (StatusCode : Nat)
deriving DecidableEq

/-- The configuration of the gate and the collaborators it calls.
HttpClient answers the n-th request (counted from 0) to a URL with a payload
and takes some nanoseconds to do so. Marshal is the error, if any, of
json.Marshal on an access key; NewRequest tells whether http.NewRequest
accepts the URL. Logging is left out: it does not influence the decision. -/
structure Auth where
  HttpClient : Nat → Text → AccessKey → DoResult × Nat
  PathPrefix : Text
  ProvisionService : Text
  Marshal : AccessKey → Option Text
  NewRequest : Text → Bool

/-- The mutable state: the cache, the clock, and two logs kept for
specification only, the requests sent to the permission oracle and the
checkAccount invocations, oldest first. -/
structure St where
  cache : Cache
  now : Nat
  calls : List (Text × AccessKey)
  checks : List (Text × AccessKey)
deriving DecidableEq

/-- What checkAccount returns; panic is the nil dereference in HttpClient.Do
when http.NewRequest failed and its error was dropped. -/
inductive CheckResult where
  | ret (ok : Bool) (err : Option Text)
  | panic
deriving DecidableEq

/-- The conversion string(n) of an integer: the character with that code
point, or U+FFFD. -/
def runeString (n : Nat) : Text :=
  if n.isValidChar then [Char.ofNat n] else [replacementChar]

/-- The cache key of checkAccount. -/
def cacheKey (accountId : Text) (accessKey : AccessKey) : Text :=
  accountId ++ accessKey.Name ++ accessKey.Key

/-- The state after cache.Set(cacheKey, v, cache.DefaultExpiration). -/
def St.store (s : St) (k : Text) (v : Bool) : St :=
  { s with cache := s.cache.Set s.now k v }

/-- The URL of the key check for a tenant. -/
def keyCheckURL (a : Auth) (accountId : Text) : Text :=
  a.ProvisionService ++ "/keyCheck/".toList ++ accountId

/-- The error text for status 404. -/
def notFoundError (accountId : Text) : Text := accountId ++ " account not found.".toList

/-- The error text for a status other than 200 and 404. -/
def statusError (code : Nat) (url : Text) : Text :=
  "got code ".toList ++ runeString code ++ " from ".toList ++ url

/-- The body of checkAccount after the invocation has been logged. -/
def checkAccountBody (a : Auth) (s : St) (accountId : Text) (accessKey : AccessKey) :
    CheckResult × St :=
  let key := cacheKey accountId accessKey
  match s.cache.Get s.now key with
  | some cacheResult => (CheckResult.ret cacheResult none, s)
  | none =>
    let url := keyCheckURL a accountId
    match a.Marshal accessKey with
    | some err => (CheckResult.ret false (some err), s.store key false)
    | none =>
      if a.NewRequest url then
        let res := a.HttpClient s.calls.length url accessKey
        let s1 : St := { s with calls := s.calls ++ [(url, accessKey)], now := s.now + res.2 }
        match res.1 with
        | DoResult.fail err => (CheckResult.ret false (some err), s1.store key false)
        | DoResult.response code =>
          if code = 404 then
            (CheckResult.ret false (some (notFoundError accountId)), s1.store key false)
          else if code = 200 then
            (CheckResult.ret true none, s1.store key true)
          else
            (CheckResult.ret false (some (statusError code url)), s1.store key false)
      else (CheckResult.panic, s)

/-- Auth.checkAccount. -/
def checkAccount (a : Auth) (s : St) (accountId : Text) (accessKey : AccessKey) :
    CheckResult × St :=
  checkAccountBody a { s with checks := s.checks ++ [(accountId, accessKey)] } accountId accessKey

/-! ## Auth.RequestHandler -/

/-- The inbound request as the handler sees it: method, URL path, the result
of Request.BasicAuth (name and key, or none), and what ioutil.ReadAll gives
for the body (all its bytes, or an error). -/
structure Request where
  Method : Text
  Path : Text
  BasicAuth : Option (Text × Text)
  Body : Except Text Text

/-- An error message: a text, or the message of a JSON decoding error. -/
inductive ErrMsg where
  | text (t : Text)
  | json (e : JsonError)
deriving DecidableEq

/-- How a pass ends. allowed: the handler returns without writing a response.
abort: GinErrorAbort(status, code, message), with the payload set before it if
any. panic: a run-time panic. -/
inductive Outcome where
  | allowed
  | abort (status : Nat) (code : Text) (message : ErrMsg) (payload : Option Text)
  | panic
deriving DecidableEq

/-- The request body left for the next handler: not read, read and replaced by
a fresh buffer holding the bytes b, or read with an error. -/
inductive BodyState where
  | untouched
  | restored (b : Text)
  | failed
deriving DecidableEq

/-- The result of a pass. -/
structure Result where
  outcome : Outcome
  st : St
  body : BodyState
deriving DecidableEq

/-- What one iteration of the line loop does: go on, or end the pass. -/
inductive Step where
  | next
  | stop (o : Outcome)
deriving DecidableEq

/-- The tenant of an index name: the accountRxp match without its final hyphen. -/
def accountOf (idx : Text) : Text := TrimSuffix (accountRxp.FindString idx) "-".toList

/-- The abort after a checkAccount error. -/
def lookupError (err : Text) : Outcome :=
  Outcome.abort 401 "AccountLookupError".toList (ErrMsg.text err) none

/-- The abort after a json.Unmarshal error. -/
def idxLineError (e : JsonError) : Outcome :=
  Outcome.abort 401 "MsearchPostBodyIdxLineError".toList (ErrMsg.json e) none

/-- The block guarded by indexSingleRxp.Match(ln). -/
def singleBranch (a : Auth) (accessKey : AccessKey) (ln : Text) (s : St) : Step × St :=
  match UnmarshalIndexSingle ln with
  | Except.error e => (Step.stop (idxLineError e), s)
  | Except.ok none => (Step.stop Outcome.panic, s)
  | Except.ok (some idxSingle) =>
    let accountId := accountOf idxSingle.Index
    match checkAccount a s accountId accessKey with
    | (CheckResult.panic, s1) => (Step.stop Outcome.panic, s1)
    | (CheckResult.ret _ (some err), s1) => (Step.stop (lookupError err), s1)
    | (CheckResult.ret true none, s1) => (Step.stop Outcome.allowed, s1)
    | (CheckResult.ret false none, s1) => (Step.next, s1)

/-- The loop over idxArray.Indexes. -/
def arrayLoop (a : Auth) (accessKey : AccessKey) : List Text → St → Step × St
  | [], s => (Step.next, s)
  | idx :: rest, s =>
    let accountId := accountOf idx
    match checkAccount a s accountId accessKey with
    | (CheckResult.panic, s1) => (Step.stop Outcome.panic, s1)
    | (CheckResult.ret _ (some err), s1) => (Step.stop (lookupError err), s1)
    | (CheckResult.ret false none, s1) =>
      (Step.stop (Outcome.abort 401 "UnauthorizedIndex".toList (ErrMsg.text accountId) none), s1)
    | (CheckResult.ret true none, s1) => arrayLoop a accessKey rest s1

/-- The block guarded by indexArrayRxp.Match(ln). -/
def arrayBranch (a : Auth) (accessKey : AccessKey) (ln : Text) (s : St) : Step × St :=
  match UnmarshalIndexArray ln with
  | Except.error e => (Step.stop (idxLineError e), s)
  | Except.ok none => (Step.stop Outcome.panic, s)
  | Except.ok (some idxArray) => arrayLoop a accessKey idxArray.Indexes s

/-- One iteration of the loop over the scanned lines. -/
def handleLine (a : Auth) (accessKey : AccessKey) (ln : Text) (s : St) : Step × St :=
  if !indexRxp.Match ln then (Step.next, s)
  else
    match (if indexSingleRxp.Match ln then singleBranch a accessKey ln s else (Step.next, s)) with
    | (Step.stop o, s1) => (Step.stop o, s1)
    | (Step.next, s1) =>
      if indexArrayRxp.Match ln then arrayBranch a accessKey ln s1 else (Step.next, s1)

/-- The loop `for scanner.Scan()` and the return after it. -/
def lineLoop (a : Auth) (accessKey : AccessKey) : List Text → St → Outcome × St
  | [], s => (Outcome.allowed, s)
  | ln :: rest, s =>
    match handleLine a accessKey ln s with
    | (Step.stop o, s1) => (o, s1)
    | (Step.next, s1) => lineLoop a accessKey rest s1

/-- The GET branch. -/
def handleGet (a : Auth) (accessKey : AccessKey) (req : Request) (s : St) : Result :=
  let denied : Outcome :=
    Outcome.abort 401 "NonMappingGetRequest".toList (ErrMsg.text req.Path) none
  if mappingRxp.Match req.Path then
    let aP := accountPathRxp.FindString (TrimPrefix req.Path a.PathPrefix)
    match sliceStr aP 1 ((aP.length : Int) - 1) with
    | none => ⟨Outcome.panic, s, BodyState.untouched⟩
    | some accountId =>
      match checkAccount a s accountId accessKey with
      | (CheckResult.panic, s1) => ⟨Outcome.panic, s1, BodyState.untouched⟩
      | (CheckResult.ret _ (some err), s1) => ⟨lookupError err, s1, BodyState.untouched⟩
      | (CheckResult.ret true none, s1) => ⟨Outcome.allowed, s1, BodyState.untouched⟩
      | (CheckResult.ret false none, s1) => ⟨denied, s1, BodyState.untouched⟩
  else ⟨denied, s, BodyState.untouched⟩

/-- The POST branch. -/
def handlePost (a : Auth) (accessKey : AccessKey) (req : Request) (s : St) : Result :=
  let tUrl := TrimPrefix req.Path a.PathPrefix
  if tUrl ≠ "/_msearch".toList then
    ⟨Outcome.abort 401 "NonMsearchPostRequest".toList (ErrMsg.text tUrl)
      (some "Only _msearch POST requests accepted.".toList), s, BodyState.untouched⟩
  else
    match req.Body with
    | Except.error err =>
      ⟨Outcome.abort 401 "MsearchPostBodyError".toList (ErrMsg.text err) none, s, BodyState.failed⟩
    | Except.ok b =>
      let r := lineLoop a accessKey (scanLines b) s
      ⟨r.1, r.2, BodyState.restored b⟩

/-- Auth.RequestHandler. -/
def RequestHandler (a : Auth) (req : Request) (s : St) : Result :=
  match req.BasicAuth with
  | none =>
    ⟨Outcome.abort 401 "Unauthorized".toList
      (ErrMsg.text "Access requires BasicAuth with access key credentials.".toList) none,
      s, BodyState.untouched⟩
  | some (name, key) =>
    let accessKey : AccessKey := ⟨name, key⟩
    if req.Method = "GET".toList then handleGet a accessKey req s
    else if req.Method = "POST".toList then handlePost a accessKey req s
    else
      ⟨Outcome.abort 401 "UnauthorizedRequest".toList (ErrMsg.text req.Path) none,
        s, BodyState.untouched⟩

/-- The state after the lines when every one of them lets the loop go on;
none when one of them ends the pass. -/
def passLines (a : Auth) (accessKey : AccessKey) : List Text → St → Option St
  | [], s => some s
  | ln :: rest, s =>
    match handleLine a accessKey ln s with
    | (Step.next, s1) => passLines a accessKey rest s1
    | (Step.stop _, _) => none

/-- The state after the elements of an index array when checkAccount
authorises every one of them; none when one check does not return true without
error. -/
def authorizedElems (a : Auth) (accessKey : AccessKey) : List Text → St → Option St
  | [], s => some s
  | idx :: rest, s =>
    match checkAccount a s (accountOf idx) accessKey with
    | (CheckResult.ret true none, s1) => authorizedElems a accessKey rest s1
    | _ => none

/-- The abort of the array loop for an element whose check returned false or
an error: the lookup error when there is one, UnauthorizedIndex with the tenant
id otherwise. -/
def elementDenied (accountId : Text) (err : Option Text) : Outcome :=
  match err with
  | some e => lookupError e
  | none => Outcome.abort 401 "UnauthorizedIndex".toList (ErrMsg.text accountId) none

/-- The state of checkAccount once its request to the oracle has come back:
the invocation and the request are logged and the clock has advanced by the
time the request took. -/
def sentState (a : Auth) (s : St) (accountId : Text) (accessKey : AccessKey) : St :=
  { cache := s.cache
    now := s.now + (a.HttpClient s.calls.length (keyCheckURL a accountId) accessKey).2
    calls := s.calls ++ [(keyCheckURL a accountId, accessKey)]
    checks := s.checks ++ [(accountId, accessKey)] }

/-- The state after successive checkAccount calls for one tenant and credential
at the given times. -/
def lookupsAt (a : Auth) (accountId : Text) (accessKey : AccessKey) : List Nat → St → St
  | [], s => s
  | t :: ts, s =>
    lookupsAt a accountId accessKey ts (checkAccount a { s with now := t } accountId accessKey).2

/-- A hyphen can be reached from the start of the text without crossing a
newline. -/
def dashReachable : Text → Bool
  | [] => false
  | x :: s => x == '-' || (dot x && dashReachable s)

/-- The index name starts with a lowercase ASCII letter or a digit and has a
hyphen after it with no newline in between: the names accountRxp matches. -/
def hasAccountPrefix : Text → Bool
  | [] => false
  | c :: rest => lowerAlnum c && dashReachable rest

/-! ## Concrete scenarios -/

/-- A gate without path prefix whose oracle, at http://provision, answers 200
for the listed tenants and 404 for every other one, within a millisecond. -/
def oracleFor (tenants : List Text) : Auth where
  HttpClient := fun _ url _ =>
    if url ∈ tenants.map (fun t => "http://provision/keyCheck/".toList ++ t) then
      (DoResult.response 200, 1000000)
    else (DoResult.response 404, 1000000)
  PathPrefix := []
  ProvisionService := "http://provision".toList
  Marshal := fun _ => none
  NewRequest := fun _ => true

/-- The credential (alice, secret1). -/
def alice : AccessKey := ⟨"alice".toList, "secret1".toList⟩

/-- A start state: empty cache, time zero, nothing logged. -/
def emptySt : St := ⟨[], 0, [], []⟩

/-- A request by alice with the given method, path and body. -/
def requestOf (method path body : String) : Request :=
  ⟨method.toList, path.toList, some (alice.Name, alice.Key), Except.ok body.toList⟩

/-- A batch search request by alice with the given body. -/
def msearch (body : String) : Request := requestOf "POST" "/_msearch" body

/-- A batch search request by alice with the given body bytes. -/
def msearchBytes (body : Text) : Request :=
  ⟨"POST".toList, "/_msearch".toList, some (alice.Name, alice.Key), Except.ok body⟩

/-- A body of two lines: 65536 spaces, then a single-reference line for
tenant b. -/
def longLineBody : Text :=
  List.replicate 65536 ' ' ++ '\n' :: "\x7b\"index\":\"b-1\"\x7d".toList

/-- A gate like oracleFor with the given path prefix. -/
def oracleWithPrefix (pathPrefix : Text) (tenants : List Text) : Auth :=
  { oracleFor tenants with PathPrefix := pathPrefix }

/-! ## Properties -/

set_option maxRecDepth 100000

/-- C5. A request without a basic-auth credential pair is aborted with status
401 and error code Unauthorized, whatever its method, path and body and
whatever the cache holds; the state (cache, oracle requests, clock) is left as
it was. -/
theorem no_credentials_denied (a : Auth) (req : Request) (s : St)
    (hauth : req.BasicAuth = none) :
    (RequestHandler a req s).outcome =
        Outcome.abort 401 "Unauthorized".toList
          (ErrMsg.text "Access requires BasicAuth with access key credentials.".toList) none
      ∧ (RequestHandler a req s).st = s := by
  simp [RequestHandler, hauth]

/-- A request without credentials for the path of a mapping request. -/
theorem no_credentials_denied_witness :
    (⟨"GET".toList, "/a-1/_mapping".toList, none, Except.ok []⟩ : Request).BasicAuth = none
      ∧ ((RequestHandler (oracleFor ["a".toList])
            ⟨"GET".toList, "/a-1/_mapping".toList, none, Except.ok []⟩ emptySt).outcome =
          Outcome.abort 401 "Unauthorized".toList
            (ErrMsg.text "Access requires BasicAuth with access key credentials.".toList) none
        ∧ (RequestHandler (oracleFor ["a".toList])
            ⟨"GET".toList, "/a-1/_mapping".toList, none, Except.ok []⟩ emptySt).st = emptySt) :=
  ⟨rfl, no_credentials_denied _ _ _ rfl⟩

/-- C4. A request with credentials that is neither a GET whose path matches the
mapping pattern nor a POST whose prefix-stripped path is /_msearch is aborted
with status 401, and the state (cache, oracle requests, clock) is left as it
was. -/
theorem disallowed_shape_denied (a : Auth) (req : Request) (s : St) (name key : Text)
    (hauth : req.BasicAuth = some (name, key))
    (hget : ¬ (req.Method = "GET".toList ∧ mappingRxp.Match req.Path = true))
    (hpost : ¬ (req.Method = "POST".toList ∧
      TrimPrefix req.Path a.PathPrefix = "/_msearch".toList)) :
    (∃ code msg payload,
        (RequestHandler a req s).outcome = Outcome.abort 401 code msg payload)
      ∧ (RequestHandler a req s).st = s := by
  unfold RequestHandler
  rw [hauth]
  by_cases hg : req.Method = "GET".toList
  · have hm : ¬ (mappingRxp.Match req.Path = true) := fun h => hget ⟨hg, h⟩
    simp only [if_pos hg]
    unfold handleGet
    simp only [if_neg hm]
    exact ⟨⟨_, _, _, rfl⟩, trivial⟩
  · by_cases hp : req.Method = "POST".toList
    · have ht : TrimPrefix req.Path a.PathPrefix ≠ "/_msearch".toList := fun h => hpost ⟨hp, h⟩
      simp only [if_neg hg, if_pos hp]
      unfold handlePost
      simp only [if_pos ht]
      exact ⟨⟨_, _, _, rfl⟩, trivial⟩
    · simp only [if_neg hg, if_neg hp]
      exact ⟨⟨_, _, _, rfl⟩, trivial⟩

/-- A DELETE request with credentials for the batch search path. -/
theorem disallowed_shape_denied_witness :
    (requestOf "DELETE" "/_msearch" "").BasicAuth = some (alice.Name, alice.Key)
      ∧ ¬ ((requestOf "DELETE" "/_msearch" "").Method = "GET".toList ∧
          mappingRxp.Match (requestOf "DELETE" "/_msearch" "").Path = true)
      ∧ ¬ ((requestOf "DELETE" "/_msearch" "").Method = "POST".toList ∧
          TrimPrefix (requestOf "DELETE" "/_msearch" "").Path (oracleFor []).PathPrefix
            = "/_msearch".toList)
      ∧ ((∃ code msg payload,
          (RequestHandler (oracleFor []) (requestOf "DELETE" "/_msearch" "") emptySt).outcome
            = Outcome.abort 401 code msg payload)
        ∧ (RequestHandler (oracleFor []) (requestOf "DELETE" "/_msearch" "") emptySt).st
            = emptySt) :=
  ⟨rfl, by decide, by decide,
    disallowed_shape_denied (oracleFor []) (requestOf "DELETE" "/_msearch" "") emptySt
      alice.Name alice.Key rfl (by decide) (by decide)⟩

/-- C1. Two identical batch requests by alice, body one single-reference line
for tenant b, which the oracle does not know (404). The first pass is aborted
with 401 AccountLookupError and caches the denial. In the second pass the
permission check answers false from the cache, and the pass ends in Allowed. -/
theorem cached_denial_single_reference_allowed :
    (RequestHandler (oracleFor ["a".toList]) (msearch "\x7b\"index\":\"b-1\"\x7d") emptySt).outcome
        = lookupError "b account not found.".toList
      ∧ (checkAccount (oracleFor ["a".toList])
          (RequestHandler (oracleFor ["a".toList]) (msearch "\x7b\"index\":\"b-1\"\x7d") emptySt).st
          "b".toList alice).1 = CheckResult.ret false none
      ∧ (RequestHandler (oracleFor ["a".toList]) (msearch "\x7b\"index\":\"b-1\"\x7d")
          (RequestHandler (oracleFor ["a".toList]) (msearch "\x7b\"index\":\"b-1\"\x7d") emptySt).st).outcome
        = Outcome.allowed := by
  decide

/-- C2, counterexample. The batch body with the one line
`{"index":["a-1","b-2"]}`, the oracle answering 200 for tenant a and 404 for
tenant b: the line matches the single-reference pattern, decoding it into
IndexSingle fails, and the pass is aborted with 401 MsearchPostBodyIdxLineError
before any permission check. The array block on its own, run on that line,
aborts with AccountLookupError, since checkAccount turns the 404 into an
error. -/
theorem multi_reference_line_rejected_as_single :
    indexSingleRxp.Match "\x7b\"index\":[\"a-1\",\"b-2\"]\x7d".toList = true
      ∧ UnmarshalIndexSingle "\x7b\"index\":[\"a-1\",\"b-2\"]\x7d".toList
        = Except.error JsonError.typeMismatch
      ∧ (RequestHandler (oracleFor ["a".toList])
          (msearch "\x7b\"index\":[\"a-1\",\"b-2\"]\x7d") emptySt).outcome
        = Outcome.abort 401 "MsearchPostBodyIdxLineError".toList
            (ErrMsg.json JsonError.typeMismatch) none
      ∧ (RequestHandler (oracleFor ["a".toList])
          (msearch "\x7b\"index\":[\"a-1\",\"b-2\"]\x7d") emptySt).st.checks = []
      ∧ (arrayBranch (oracleFor ["a".toList]) alice
          "\x7b\"index\":[\"a-1\",\"b-2\"]\x7d".toList emptySt).1
        = Step.stop (lookupError "b account not found.".toList) :=
  ⟨by decide, by rfl, by decide, by decide, by decide⟩

/-- C8. The batch body with the one line `{"index":["a-1","a-2"]}`, the oracle
answering 200 for tenant a: the pass makes no permission check and is aborted
with 401 MsearchPostBodyIdxLineError, although the array block alone would
check both elements and go on. -/
theorem authorized_multi_reference_line_denied :
    (RequestHandler (oracleFor ["a".toList])
          (msearch "\x7b\"index\":[\"a-1\",\"a-2\"]\x7d") emptySt).outcome
        = Outcome.abort 401 "MsearchPostBodyIdxLineError".toList
            (ErrMsg.json JsonError.typeMismatch) none
      ∧ (RequestHandler (oracleFor ["a".toList])
          (msearch "\x7b\"index\":[\"a-1\",\"a-2\"]\x7d") emptySt).st.checks = []
      ∧ (arrayBranch (oracleFor ["a".toList]) alice
          "\x7b\"index\":[\"a-1\",\"a-2\"]\x7d".toList emptySt).1 = Step.next
      ∧ (arrayBranch (oracleFor ["a".toList]) alice
          "\x7b\"index\":[\"a-1\",\"a-2\"]\x7d".toList emptySt).2.checks
        = [("a".toList, alice), ("a".toList, alice)] := by
  decide

/-- C3, counterexample. The triples (ab, c, d) and (a, bc, d) have the same
cache key. After tenant ab was authorised for (c, d), a check of tenant a for
(bc, d) returns that cached true without asking the oracle, which on its own
answers 404 for tenant a. -/
theorem cacheKey_collision :
    cacheKey "ab".toList ⟨"c".toList, "d".toList⟩ = cacheKey "a".toList ⟨"bc".toList, "d".toList⟩
      ∧ "ab".toList ≠ "a".toList
      ∧ (checkAccount (oracleFor ["ab".toList]) emptySt "a".toList
          ⟨"bc".toList, "d".toList⟩).1 = CheckResult.ret false (some "a account not found.".toList)
      ∧ (checkAccount (oracleFor ["ab".toList])
          (checkAccount (oracleFor ["ab".toList]) emptySt "ab".toList ⟨"c".toList, "d".toList⟩).2
          "a".toList ⟨"bc".toList, "d".toList⟩).1 = CheckResult.ret true none
      ∧ (checkAccount (oracleFor ["ab".toList])
          (checkAccount (oracleFor ["ab".toList]) emptySt "ab".toList ⟨"c".toList, "d".toList⟩).2
          "a".toList ⟨"bc".toList, "d".toList⟩).2.calls.length = 1 := by
  decide

/-- C3, amended. Among triples whose tenant ids have the same length and whose
credential names have the same length, equal cache keys come from equal
triples. -/
theorem cacheKey_injective_of_lengths (t1 t2 : Text) (k1 k2 : AccessKey)
    (hkey : cacheKey t1 k1 = cacheKey t2 k2)
    (ht : t1.length = t2.length) (hn : k1.Name.length = k2.Name.length) :
    t1 = t2 ∧ k1 = k2 := by
  unfold cacheKey at hkey
  have h1 := List.append_inj hkey (by simp [ht, hn])
  have h2 := List.append_inj h1.1 ht
  refine ⟨h2.1, ?_⟩
  cases k1
  cases k2
  simp_all

/-- Two triples of the same shape with the same key. -/
theorem cacheKey_injective_of_lengths_witness :
    cacheKey "a".toList alice = cacheKey "a".toList alice
      ∧ "a".toList.length = "a".toList.length
      ∧ alice.Name.length = alice.Name.length
      ∧ ("a".toList = "a".toList ∧ alice = alice) :=
  ⟨rfl, rfl, rfl, cacheKey_injective_of_lengths "a".toList "a".toList alice alice rfl rfl rfl⟩

/-- The lazy star of `.` before a literal hyphen stops at the first hyphen,
when no newline stands before it. -/
theorem lazyStar_dash (rest : Text) (hmem : '-' ∈ rest)
    (hnl : ∀ c ∈ rest.takeWhile (fun c => c != '-'), c ≠ '\n') :
    lazyStarAux dot (matchHere [Item.lit '-']) rest
      = some (rest.takeWhile (fun c => c != '-') ++ ['-']) := by
  induction rest with
  | nil => simp at hmem
  | cons x s ih =>
    by_cases hx : x = '-'
    · subst hx
      simp [lazyStarAux, matchHere]
    · have hmem1 : '-' ∈ s := by
        rcases List.mem_cons.mp hmem with h | h
        · exact absurd h.symm hx
        · exact h
      have htw : (x :: s).takeWhile (fun c => c != '-') = x :: s.takeWhile (fun c => c != '-') := by
        simp [List.takeWhile_cons, hx]
      rw [htw] at hnl
      have hdot : dot x = true := by
        have := hnl x (List.mem_cons_self _ _)
        simp [dot, this]
      have ih1 := ih hmem1 (fun c hc => hnl c (List.mem_cons_of_mem _ hc))
      have hk : matchHere [Item.lit '-'] (x :: s) = none := by simp [matchHere, hx]
      simp only [lazyStarAux]
      rw [hk, htw, ih1]
      simp [hdot]

/-- A match of a greedy plus splits the text into a run of the class and a
text the continuation matches. -/
theorem greedyPlus_split (p : Char → Bool) (k : Text → Option Text) (s : Text)
    (h : (greedyPlusAux p k s).isSome = true) :
    ∃ run b, s = run ++ b ∧ (∀ c ∈ run, p c = true) ∧ (k b).isSome = true := by
  induction s with
  | nil => simp [greedyPlusAux] at h
  | cons x s ih =>
    unfold greedyPlusAux at h
    by_cases hp : p x = true
    · simp only [hp, if_true] at h
      cases hrec : greedyPlusAux p k s with
      | some m =>
        obtain ⟨run, b, hs, hall, hk⟩ := ih (by simp [hrec])
        refine ⟨x :: run, b, by simp [hs], ?_, hk⟩
        intro c hc
        rcases List.mem_cons.mp hc with h1 | h1
        · exact h1 ▸ hp
        · exact hall c h1
      | none =>
        rw [hrec] at h
        refine ⟨[x], s, rfl, ?_, ?_⟩
        · intro c hc
          simp at hc
          exact hc ▸ hp
        · cases hk : k s with
          | none => simp [hk] at h
          | some m => rfl
    · simp [hp] at h

/-- Literal characters followed by the end of text match that text only. -/
theorem matchHere_lits_eol (t b : Text)
    (h : (matchHere (t.map Item.lit ++ [Item.eol]) b).isSome = true) : b = t := by
  induction t generalizing b with
  | nil =>
    cases b with
    | nil => rfl
    | cons x s => simp [matchHere] at h
  | cons c t ih =>
    cases b with
    | nil => simp [matchHere] at h
    | cons x s =>
      simp only [List.map_cons, List.cons_append, matchHere] at h
      by_cases hx : x = c
      · simp only [hx, if_true] at h
        have := ih s (by
          cases hm : matchHere (t.map Item.lit ++ [Item.eol]) s with
          | none => simp [hm] at h
          | some m => rfl)
        rw [hx, this]
      · simp [hx] at h

/-- A path that matches the mapping pattern has no whitespace character. -/
theorem mapping_no_space (p : Text) (h : mappingRxp.Match p = true) :
    ∀ c ∈ p, nonSpace c = true := by
  unfold Regexp.Match Regexp.find mappingRxp at h
  simp only [if_true] at h
  cases p with
  | nil => simp [matchHere] at h
  | cons x s =>
    simp only [matchHere] at h
    by_cases hx : x = '/'
    · simp only [hx, if_true, Option.isSome_map'] at h
      obtain ⟨run, b, hs, hall, hk⟩ := greedyPlus_split _ _ _ h
      have hb := matchHere_lits_eol "/_mapping".toList b hk
      intro c hc
      rw [hs, hb, hx] at hc
      rcases List.mem_cons.mp hc with h1 | h1
      · rw [h1]; decide
      · rcases List.mem_append.mp h1 with h2 | h2
        · exact hall c h2
        · have hlit : ∀ d ∈ "/_mapping".toList, nonSpace d = true := by decide
          exact hlit c h2
    · simp [hx] at h

/-- The slice aP[1 : len(aP)-1] of a slash, a text and a hyphen is that text. -/
theorem sliceStr_inner (tw : Text) :
    sliceStr ('/' :: (tw ++ ['-'])) 1 ((('/' :: (tw ++ ['-'])).length : Int) - 1) = some tw := by
  unfold sliceStr
  have hlen : ((('/' :: (tw ++ ['-'])).length : Int) - 1) = ((tw.length + 1 : Nat) : Int) := by
    simp
  rw [hlen]
  have hcond : (0 : Int) ≤ 1 ∧ (1 : Int) ≤ ((tw.length + 1 : Nat) : Int) ∧
      ((tw.length + 1 : Nat) : Int) ≤ (('/' :: (tw ++ ['-'])).length : Int) := by
    refine ⟨by omega, by omega, ?_⟩
    simp
  rw [if_pos hcond]
  simp [Int.toNat_ofNat]

/-- The text left by TrimPrefix consists of characters of the original. -/
theorem mem_of_mem_TrimPrefix (s p : Text) (c : Char) (h : c ∈ TrimPrefix s p) : c ∈ s := by
  unfold TrimPrefix at h
  split at h
  · exact List.mem_of_mem_drop h
  · exact h

/-- The account path pattern finds the slash, the text before the first hyphen
and that hyphen. -/
theorem accountPath_find (rest : Text) (hdash : '-' ∈ rest)
    (hnl : ∀ c ∈ rest, c ≠ '\n') :
    accountPathRxp.FindString ('/' :: rest)
      = '/' :: (rest.takeWhile (fun c => c != '-') ++ ['-']) := by
  have hl := lazyStar_dash rest hdash
    (fun c hc => hnl c ((List.takeWhile_prefix _).subset hc))
  have hm : matchHere accountPathRxp.items ('/' :: rest)
      = (lazyStarAux dot (matchHere [Item.lit '-']) rest).map (fun m => '/' :: m) := rfl
  have ha : accountPathRxp.anchored = true := rfl
  unfold Regexp.FindString Regexp.find
  rw [if_pos ha, hm, hl]
  rfl

/-- C6. A GET request with credentials whose path matches the mapping pattern
and whose prefix-stripped path is a slash followed by a text with a hyphen:
the tenant checked is the text between that slash and the first hyphen; the
pass ends in Allowed exactly when checkAccount for that tenant returns true
without error, and it is aborted with status 401 when checkAccount returns
false or an error. The state is the one checkAccount leaves. -/
theorem mapping_request_allowed_iff (a : Auth) (req : Request) (s : St)
    (name key rest : Text)
    (hauth : req.BasicAuth = some (name, key))
    (hget : req.Method = "GET".toList)
    (hmap : mappingRxp.Match req.Path = true)
    (hstrip : TrimPrefix req.Path a.PathPrefix = '/' :: rest)
    (hdash : '-' ∈ rest) :
    (RequestHandler a req s).st
        = (checkAccount a s (rest.takeWhile (fun c => c != '-')) ⟨name, key⟩).2
      ∧ ((RequestHandler a req s).outcome = Outcome.allowed ↔
          (checkAccount a s (rest.takeWhile (fun c => c != '-')) ⟨name, key⟩).1
            = CheckResult.ret true none)
      ∧ (∀ ok err,
          (checkAccount a s (rest.takeWhile (fun c => c != '-')) ⟨name, key⟩).1
            = CheckResult.ret ok err →
          (ok = false ∨ err ≠ none) →
          ∃ code msg, (RequestHandler a req s).outcome = Outcome.abort 401 code msg none) := by
  have hnl : ∀ c ∈ rest, c ≠ '\n' := by
    intro c hc hcn
    have hin : c ∈ req.Path :=
      mem_of_mem_TrimPrefix req.Path a.PathPrefix c (by rw [hstrip]; exact List.mem_cons_of_mem _ hc)
    have := mapping_no_space req.Path hmap c hin
    rw [hcn] at this
    exact absurd this (by decide)
  have hfind := accountPath_find rest hdash hnl
  have hslice := sliceStr_inner (rest.takeWhile (fun c => c != '-'))
  unfold RequestHandler
  rw [hauth]
  simp only [if_pos hget]
  unfold handleGet
  simp only [if_pos hmap]
  rw [hstrip, hfind, hslice]
  simp only []
  rcases hc : checkAccount a s (rest.takeWhile (fun c => c != '-')) ⟨name, key⟩ with ⟨r, s1⟩
  cases r with
  | panic => simp
  | ret ok err =>
    cases err with
    | some e => simp [lookupError]
    | none =>
      cases ok with
      | true => simp
      | false => simp

/-- The mapping request of the spec scenario: alice asks for
/tenant42-logs/_mapping and the oracle answers 200 for tenant42. -/
theorem mapping_request_allowed_iff_witness :
    (requestOf "GET" "/tenant42-logs/_mapping" "").BasicAuth = some (alice.Name, alice.Key)
      ∧ (requestOf "GET" "/tenant42-logs/_mapping" "").Method = "GET".toList
      ∧ mappingRxp.Match (requestOf "GET" "/tenant42-logs/_mapping" "").Path = true
      ∧ TrimPrefix (requestOf "GET" "/tenant42-logs/_mapping" "").Path
          (oracleFor ["tenant42".toList]).PathPrefix = '/' :: "tenant42-logs/_mapping".toList
      ∧ '-' ∈ "tenant42-logs/_mapping".toList
      ∧ (checkAccount (oracleFor ["tenant42".toList]) emptySt "tenant42".toList alice).1
          = CheckResult.ret true none
      ∧ (RequestHandler (oracleFor ["tenant42".toList])
          (requestOf "GET" "/tenant42-logs/_mapping" "") emptySt).outcome = Outcome.allowed :=
  ⟨rfl, rfl, by decide, by decide, by decide, by decide,
    (mapping_request_allowed_iff (oracleFor ["tenant42".toList])
      (requestOf "GET" "/tenant42-logs/_mapping" "") emptySt alice.Name alice.Key
      "tenant42-logs/_mapping".toList rfl rfl (by decide) (by decide) (by decide)).2.1.mpr
      (by decide)⟩

/-- Lines that let the loop go on do not change what the rest of the body
leads to, beyond the state they leave. -/
theorem lineLoop_after_pass (a : Auth) (k : AccessKey) (pre rest : List Text) (s s1 : St)
    (h : passLines a k pre s = some s1) :
    lineLoop a k (pre ++ rest) s = lineLoop a k rest s1 := by
  induction pre generalizing s with
  | nil =>
    simp only [passLines, Option.some.injEq] at h
    subst h
    rfl
  | cons ln pre ih =>
    simp only [passLines] at h
    simp only [List.cons_append, lineLoop]
    rcases hl : handleLine a k ln s with ⟨st, s2⟩
    rw [hl] at h
    cases st with
    | next => exact ih s2 h
    | stop o => simp at h

/-- A batch search request with credentials and a readable body runs the line
loop over the scanned lines and re-exposes the bytes it read. -/
theorem handler_post_lines (a : Auth) (req : Request) (s : St) (name key b : Text)
    (hauth : req.BasicAuth = some (name, key))
    (hpost : req.Method = "POST".toList)
    (hpath : TrimPrefix req.Path a.PathPrefix = "/_msearch".toList)
    (hbody : req.Body = Except.ok b) :
    RequestHandler a req s
      = ⟨(lineLoop a ⟨name, key⟩ (scanLines b) s).1, (lineLoop a ⟨name, key⟩ (scanLines b) s).2,
          BodyState.restored b⟩ := by
  have hne : req.Method ≠ "GET".toList := by
    rw [hpost]
    decide
  unfold RequestHandler
  rw [hauth]
  simp only [if_neg hne, if_pos hpost]
  unfold handlePost
  simp only [if_neg (not_not.mpr hpath)]
  rw [hbody]

/-- C7, counterexample. The body has a single-reference line for tenant a,
which the oracle authorises, after one for tenant b, which it does not know:
the pass is aborted at the first line. -/
theorem authorized_line_behind_denied_line :
    scanLines "\x7b\"index\":\"b-1\"\x7d\n\x7b\"index\":\"a-1\"\x7d".toList
        = ["\x7b\"index\":\"b-1\"\x7d".toList, "\x7b\"index\":\"a-1\"\x7d".toList]
      ∧ (singleBranch (oracleFor ["a".toList]) alice "\x7b\"index\":\"a-1\"\x7d".toList emptySt).1
        = Step.stop Outcome.allowed
      ∧ (RequestHandler (oracleFor ["a".toList])
          (msearch "\x7b\"index\":\"b-1\"\x7d\n\x7b\"index\":\"a-1\"\x7d") emptySt).outcome
        = lookupError "b account not found.".toList := by
  decide

/-- C7, amended. A batch search request with credentials whose line loop
reaches a single-reference line (every line before it lets the loop go on) for
a tenant that checkAccount authorises ends in Allowed, and the state, with its
logs of permission checks and oracle requests, is the one that check leaves:
nothing of the lines after it is evaluated. -/
theorem single_reference_authorized_allowed (a : Auth) (req : Request) (s s1 : St)
    (name key b ln : Text) (pre post : List Text) (idx : IndexSingle)
    (hauth : req.BasicAuth = some (name, key))
    (hpost : req.Method = "POST".toList)
    (hpath : TrimPrefix req.Path a.PathPrefix = "/_msearch".toList)
    (hbody : req.Body = Except.ok b)
    (hlines : scanLines b = pre ++ ln :: post)
    (hpre : passLines a ⟨name, key⟩ pre s = some s1)
    (hidx : indexRxp.Match ln = true)
    (hsingle : indexSingleRxp.Match ln = true)
    (hdec : UnmarshalIndexSingle ln = Except.ok (some idx))
    (hchk : (checkAccount a s1 (accountOf idx.Index) ⟨name, key⟩).1
      = CheckResult.ret true none) :
    RequestHandler a req s
      = ⟨Outcome.allowed, (checkAccount a s1 (accountOf idx.Index) ⟨name, key⟩).2,
          BodyState.restored b⟩ := by
  rw [handler_post_lines a req s name key b hauth hpost hpath hbody, hlines,
    lineLoop_after_pass a ⟨name, key⟩ pre (ln :: post) s s1 hpre]
  have hstep : handleLine a ⟨name, key⟩ ln s1
      = (Step.stop Outcome.allowed, (checkAccount a s1 (accountOf idx.Index) ⟨name, key⟩).2) := by
    unfold handleLine
    simp only [hidx, hsingle, Bool.not_true, if_true]
    unfold singleBranch
    rw [hdec]
    simp only []
    rcases hc : checkAccount a s1 (accountOf idx.Index) ⟨name, key⟩ with ⟨r, s2⟩
    rw [hc] at hchk
    simp only at hchk
    subst hchk
    simp
  simp only [lineLoop, hstep]

/-- A body whose second line is a single-reference line for the authorised
tenant a, after a line without index field. -/
theorem single_reference_authorized_allowed_witness :
    (msearch "\x7b\x7d\n\x7b\"index\":\"a-1\"\x7d\n\x7b\"index\":\"b-1\"\x7d").BasicAuth
        = some (alice.Name, alice.Key)
      ∧ (msearch "\x7b\x7d\n\x7b\"index\":\"a-1\"\x7d\n\x7b\"index\":\"b-1\"\x7d").Method
        = "POST".toList
      ∧ TrimPrefix (msearch "\x7b\x7d\n\x7b\"index\":\"a-1\"\x7d\n\x7b\"index\":\"b-1\"\x7d").Path
          (oracleFor ["a".toList]).PathPrefix = "/_msearch".toList
      ∧ (msearch "\x7b\x7d\n\x7b\"index\":\"a-1\"\x7d\n\x7b\"index\":\"b-1\"\x7d").Body
        = Except.ok "\x7b\x7d\n\x7b\"index\":\"a-1\"\x7d\n\x7b\"index\":\"b-1\"\x7d".toList
      ∧ scanLines "\x7b\x7d\n\x7b\"index\":\"a-1\"\x7d\n\x7b\"index\":\"b-1\"\x7d".toList
        = ["\x7b\x7d".toList] ++ "\x7b\"index\":\"a-1\"\x7d".toList
            :: ["\x7b\"index\":\"b-1\"\x7d".toList]
      ∧ passLines (oracleFor ["a".toList]) alice ["\x7b\x7d".toList] emptySt = some emptySt
      ∧ indexRxp.Match "\x7b\"index\":\"a-1\"\x7d".toList = true
      ∧ indexSingleRxp.Match "\x7b\"index\":\"a-1\"\x7d".toList = true
      ∧ UnmarshalIndexSingle "\x7b\"index\":\"a-1\"\x7d".toList = Except.ok (some ⟨"a-1".toList⟩)
      ∧ (checkAccount (oracleFor ["a".toList]) emptySt (accountOf "a-1".toList) alice).1
        = CheckResult.ret true none
      ∧ RequestHandler (oracleFor ["a".toList])
          (msearch "\x7b\x7d\n\x7b\"index\":\"a-1\"\x7d\n\x7b\"index\":\"b-1\"\x7d") emptySt
        = ⟨Outcome.allowed,
            (checkAccount (oracleFor ["a".toList]) emptySt (accountOf "a-1".toList) alice).2,
            BodyState.restored
              "\x7b\x7d\n\x7b\"index\":\"a-1\"\x7d\n\x7b\"index\":\"b-1\"\x7d".toList⟩ :=
  ⟨rfl, rfl, by decide, rfl, by decide, by decide, by decide, by decide, by rfl, by decide,
    single_reference_authorized_allowed (oracleFor ["a".toList])
      (msearch "\x7b\x7d\n\x7b\"index\":\"a-1\"\x7d\n\x7b\"index\":\"b-1\"\x7d") emptySt emptySt
      alice.Name alice.Key
      "\x7b\x7d\n\x7b\"index\":\"a-1\"\x7d\n\x7b\"index\":\"b-1\"\x7d".toList
      "\x7b\"index\":\"a-1\"\x7d".toList ["\x7b\x7d".toList] ["\x7b\"index\":\"b-1\"\x7d".toList]
      ⟨"a-1".toList⟩ rfl rfl (by decide) rfl (by decide) (by decide) (by decide) (by decide)
      (by rfl) (by decide)⟩

/-- C9, counterexample. The line `{"index":5}` declares an index field that is
neither a string nor an array of strings; it matches neither the
single-reference nor the array pattern, is skipped, and the pass ends in
Allowed. -/
theorem undecodable_index_line_skipped :
    indexRxp.Match "\x7b\"index\":5\x7d".toList = true
      ∧ indexSingleRxp.Match "\x7b\"index\":5\x7d".toList = false
      ∧ indexArrayRxp.Match "\x7b\"index\":5\x7d".toList = false
      ∧ handleLine (oracleFor []) alice "\x7b\"index\":5\x7d".toList emptySt
        = (Step.next, emptySt)
      ∧ (RequestHandler (oracleFor []) (msearch "\x7b\"index\":5\x7d") emptySt).outcome
        = Outcome.allowed := by
  decide

/-- C9, amended. When the line loop of a batch search request with credentials
reaches a line with an index field that matches the single-reference pattern
and does not decode into IndexSingle, or one that does not match the
single-reference pattern, matches the array pattern and does not decode into
IndexArray, the pass is aborted with 401 MsearchPostBodyIdxLineError and the
line causes no permission check. -/
theorem undecodable_gated_line_aborts (a : Auth) (req : Request) (s s1 : St)
    (name key b ln : Text) (pre post : List Text) (e : JsonError)
    (hauth : req.BasicAuth = some (name, key))
    (hpost : req.Method = "POST".toList)
    (hpath : TrimPrefix req.Path a.PathPrefix = "/_msearch".toList)
    (hbody : req.Body = Except.ok b)
    (hlines : scanLines b = pre ++ ln :: post)
    (hpre : passLines a ⟨name, key⟩ pre s = some s1)
    (hidx : indexRxp.Match ln = true)
    (hbad : (indexSingleRxp.Match ln = true ∧ UnmarshalIndexSingle ln = Except.error e)
      ∨ (indexSingleRxp.Match ln = false ∧ indexArrayRxp.Match ln = true
          ∧ UnmarshalIndexArray ln = Except.error e)) :
    RequestHandler a req s
      = ⟨Outcome.abort 401 "MsearchPostBodyIdxLineError".toList (ErrMsg.json e) none, s1,
          BodyState.restored b⟩ := by
  rw [handler_post_lines a req s name key b hauth hpost hpath hbody, hlines,
    lineLoop_after_pass a ⟨name, key⟩ pre (ln :: post) s s1 hpre]
  have hstep : handleLine a ⟨name, key⟩ ln s1 = (Step.stop (idxLineError e), s1) := by
    unfold handleLine
    rcases hbad with ⟨hs, hd⟩ | ⟨hs, ha, hd⟩
    · simp only [hidx, hs, Bool.not_true, if_true]
      unfold singleBranch
      rw [hd]
      simp
    · simp only [hidx, hs, ha, Bool.not_true, if_true]
      unfold arrayBranch
      rw [hd]
      simp
  simp only [lineLoop, hstep]
  rfl

/-- A body whose one line has an index string without its closing brace. -/
theorem undecodable_gated_line_aborts_witness :
    (msearch "\x7b\"index\":\"a-1\"").BasicAuth = some (alice.Name, alice.Key)
      ∧ (msearch "\x7b\"index\":\"a-1\"").Method = "POST".toList
      ∧ TrimPrefix (msearch "\x7b\"index\":\"a-1\"").Path (oracleFor ["a".toList]).PathPrefix
        = "/_msearch".toList
      ∧ (msearch "\x7b\"index\":\"a-1\"").Body = Except.ok "\x7b\"index\":\"a-1\"".toList
      ∧ scanLines "\x7b\"index\":\"a-1\"".toList = [] ++ "\x7b\"index\":\"a-1\"".toList :: []
      ∧ passLines (oracleFor ["a".toList]) alice [] emptySt = some emptySt
      ∧ indexRxp.Match "\x7b\"index\":\"a-1\"".toList = true
      ∧ ((indexSingleRxp.Match "\x7b\"index\":\"a-1\"".toList = true
            ∧ UnmarshalIndexSingle "\x7b\"index\":\"a-1\"".toList
              = Except.error JsonError.invalidSyntax)
          ∨ (indexSingleRxp.Match "\x7b\"index\":\"a-1\"".toList = false
            ∧ indexArrayRxp.Match "\x7b\"index\":\"a-1\"".toList = true
            ∧ UnmarshalIndexArray "\x7b\"index\":\"a-1\"".toList
              = Except.error JsonError.invalidSyntax))
      ∧ RequestHandler (oracleFor ["a".toList]) (msearch "\x7b\"index\":\"a-1\"") emptySt
        = ⟨Outcome.abort 401 "MsearchPostBodyIdxLineError".toList
            (ErrMsg.json JsonError.invalidSyntax) none, emptySt,
            BodyState.restored "\x7b\"index\":\"a-1\"".toList⟩ :=
  ⟨rfl, rfl, by decide, rfl, by decide, rfl, by decide, Or.inl ⟨by decide, by rfl⟩,
    undecodable_gated_line_aborts (oracleFor ["a".toList]) (msearch "\x7b\"index\":\"a-1\"")
      emptySt emptySt alice.Name alice.Key "\x7b\"index\":\"a-1\"".toList
      "\x7b\"index\":\"a-1\"".toList [] [] JsonError.invalidSyntax rfl rfl (by decide) rfl
      (by decide) rfl (by decide) (Or.inl ⟨by decide, by rfl⟩)⟩

/-- The entry that Set stores is the current one for its key. -/
theorem Cache.lookup_Set (c : Cache) (now : Nat) (k : Text) (v : Bool) :
    List.lookup k (c.Set now k v) = some ⟨v, now + DefaultExpiration⟩ := by
  simp [Cache.Set, List.lookup]

/-- An entry that has no expiry or has not reached it is found. -/
theorem Cache.Get_of_lookup (c : Cache) (t : Nat) (k : Text) (it : CacheItem)
    (h : List.lookup k c = some it) (ht : it.Expiration = 0 ∨ t ≤ it.Expiration) :
    c.Get t k = some it.Object := by
  unfold Cache.Get
  rw [h]
  have hn : ¬ (0 < it.Expiration ∧ it.Expiration < t) := by omega
  simp only [if_neg hn]

/-- A found decision comes from the current entry of the key. -/
theorem Cache.lookup_of_Get (c : Cache) (t : Nat) (k : Text) (b : Bool)
    (h : c.Get t k = some b) : ∃ it, List.lookup k c = some it ∧ it.Object = b := by
  unfold Cache.Get at h
  cases hl : List.lookup k c with
  | none => simp [hl] at h
  | some it =>
    rw [hl] at h
    refine ⟨it, rfl, ?_⟩
    by_cases hx : 0 < it.Expiration ∧ it.Expiration < t
    · simp [hx] at h
    · simpa [hx] using h

/-- On a cache hit checkAccount returns the cached decision without error and
only logs the invocation. -/
theorem checkAccount_hit (a : Auth) (s : St) (accountId : Text) (k : AccessKey) (b : Bool)
    (h : s.cache.Get s.now (cacheKey accountId k) = some b) :
    checkAccount a s accountId k
      = (CheckResult.ret b none, { s with checks := s.checks ++ [(accountId, k)] }) := by
  unfold checkAccount checkAccountBody
  simp only [h]

/-- C10. After a checkAccount call that returned, the cache holds an entry for
the key of that tenant and credential with the returned decision; on a cache
miss the entry expires one minute after the time of the store, and a returned
error goes with the decision false. Any further checkAccount for the same
tenant and credential at a time not after that expiry returns the same
decision without error, sends no request to the oracle and changes nothing but
the log of invocations. -/
theorem checkAccount_repeat_cached (a : Auth) (s s1 : St) (accountId : Text) (k : AccessKey)
    (ok : Bool) (err : Option Text)
    (hfirst : checkAccount a s accountId k = (CheckResult.ret ok err, s1)) :
    ∃ it, List.lookup (cacheKey accountId k) s1.cache = some it ∧ it.Object = ok
      ∧ (s.cache.Get s.now (cacheKey accountId k) = none →
          it.Expiration = s1.now + DefaultExpiration)
      ∧ (err ≠ none → ok = false)
      ∧ ∀ t, (it.Expiration = 0 ∨ t ≤ it.Expiration) →
          checkAccount a { s1 with now := t } accountId k
            = (CheckResult.ret ok none,
                { s1 with now := t, checks := s1.checks ++ [(accountId, k)] }) := by
  have hrepeat : ∀ it, List.lookup (cacheKey accountId k) s1.cache = some it → it.Object = ok →
      ∀ t, (it.Expiration = 0 ∨ t ≤ it.Expiration) →
        checkAccount a { s1 with now := t } accountId k
          = (CheckResult.ret ok none,
              { s1 with now := t, checks := s1.checks ++ [(accountId, k)] }) := by
    intro it hl ho t ht
    have hg := Cache.Get_of_lookup s1.cache t (cacheKey accountId k) it hl ht
    rw [ho] at hg
    exact checkAccount_hit a { s1 with now := t } accountId k ok hg
  unfold checkAccount checkAccountBody at hfirst
  simp only [] at hfirst
  cases hg : s.cache.Get s.now (cacheKey accountId k) with
  | some b =>
    simp only [hg] at hfirst
    cases hfirst
    obtain ⟨it, hl, ho⟩ := Cache.lookup_of_Get _ _ _ _ hg
    exact ⟨it, hl, ho, fun h => by simp at h, fun h => absurd rfl h, hrepeat it hl ho⟩
  | none =>
    simp only [hg] at hfirst
    cases hm : a.Marshal k with
    | some e =>
      simp only [hm] at hfirst
      cases hfirst
      exact ⟨_, Cache.lookup_Set _ _ _ _, rfl, fun _ => rfl, fun _ => rfl,
        hrepeat _ (Cache.lookup_Set _ _ _ _) rfl⟩
    | none =>
      simp only [hm] at hfirst
      by_cases hn : a.NewRequest (keyCheckURL a accountId) = true
      · rw [if_pos hn] at hfirst
        cases hr : (a.HttpClient s.calls.length (keyCheckURL a accountId) k).1 with
        | fail e =>
          simp only [hr] at hfirst
          cases hfirst
          exact ⟨_, Cache.lookup_Set _ _ _ _, rfl, fun _ => rfl, fun _ => rfl,
            hrepeat _ (Cache.lookup_Set _ _ _ _) rfl⟩
        | response code =>
          simp only [hr] at hfirst
          by_cases h404 : code = 404
          · rw [if_pos h404] at hfirst
            cases hfirst
            exact ⟨_, Cache.lookup_Set _ _ _ _, rfl, fun _ => rfl, fun _ => rfl,
              hrepeat _ (Cache.lookup_Set _ _ _ _) rfl⟩
          · rw [if_neg h404] at hfirst
            by_cases h200 : code = 200
            · rw [if_pos h200] at hfirst
              cases hfirst
              exact ⟨_, Cache.lookup_Set _ _ _ _, rfl, fun _ => rfl, fun h => absurd rfl h,
                hrepeat _ (Cache.lookup_Set _ _ _ _) rfl⟩
            · rw [if_neg h200] at hfirst
              cases hfirst
              exact ⟨_, Cache.lookup_Set _ _ _ _, rfl, fun _ => rfl, fun _ => rfl,
                hrepeat _ (Cache.lookup_Set _ _ _ _) rfl⟩
      · rw [if_neg hn] at hfirst
        cases hfirst

/-- The oracle answers 404 for tenant b: the denial is cached and a second
check within the minute returns false without a request. -/
theorem checkAccount_repeat_cached_witness :
    checkAccount (oracleFor ["a".toList]) emptySt "b".toList alice
        = (CheckResult.ret false (some (notFoundError "b".toList)),
            (checkAccount (oracleFor ["a".toList]) emptySt "b".toList alice).2)
      ∧ ∃ it, List.lookup (cacheKey "b".toList alice)
            (checkAccount (oracleFor ["a".toList]) emptySt "b".toList alice).2.cache = some it
          ∧ it.Object = false
          ∧ (emptySt.cache.Get emptySt.now (cacheKey "b".toList alice) = none →
              it.Expiration
                = (checkAccount (oracleFor ["a".toList]) emptySt "b".toList alice).2.now
                  + DefaultExpiration)
          ∧ (some (notFoundError "b".toList) ≠ none → false = false)
          ∧ ∀ t, (it.Expiration = 0 ∨ t ≤ it.Expiration) →
              checkAccount (oracleFor ["a".toList])
                  { (checkAccount (oracleFor ["a".toList]) emptySt "b".toList alice).2 with
                    now := t } "b".toList alice
                = (CheckResult.ret false none,
                    { (checkAccount (oracleFor ["a".toList]) emptySt "b".toList alice).2 with
                      now := t,
                      checks :=
                        (checkAccount (oracleFor ["a".toList]) emptySt "b".toList alice).2.checks
                          ++ [("b".toList, alice)] }) :=
  ⟨by decide,
    checkAccount_repeat_cached (oracleFor ["a".toList]) emptySt
      (checkAccount (oracleFor ["a".toList]) emptySt "b".toList alice).2 "b".toList alice false
      (some (notFoundError "b".toList)) (by decide)⟩

/-- Elements that are authorised do not change what the rest of the array
leads to, beyond the state they leave. -/
theorem arrayLoop_after_authorized (a : Auth) (k : AccessKey) (pre rest : List Text)
    (s s1 : St) (h : authorizedElems a k pre s = some s1) :
    arrayLoop a k (pre ++ rest) s = arrayLoop a k rest s1 := by
  induction pre generalizing s with
  | nil =>
    simp only [authorizedElems, Option.some.injEq] at h
    subst h
    rfl
  | cons idx pre ih =>
    simp only [authorizedElems] at h
    simp only [List.cons_append, arrayLoop]
    rcases hc : checkAccount a s (accountOf idx) k with ⟨r, s2⟩
    rw [hc] at h
    cases r with
    | panic => simp at h
    | ret ok err =>
      cases err with
      | some e => simp at h
      | none =>
        cases ok with
        | false => simp at h
        | true => exact ih s2 h

/-- C2, amended. In the loop over the decoded index array of a line, when the
elements before some element are authorised and checkAccount for that element
returns false or an error, the pass is aborted with status 401: with code
UnauthorizedIndex and the tenant id as detail when there is no error (a cached
denial), with code AccountLookupError and the error text otherwise (as for an
oracle 404). The state is the one that check leaves: no permission check is
made for the elements after it. -/
theorem arrayLoop_stops_at_first_denied (a : Auth) (k : AccessKey) (pre post : List Text)
    (idx : Text) (s s1 s2 : St) (ok : Bool) (err : Option Text)
    (hpre : authorizedElems a k pre s = some s1)
    (hchk : checkAccount a s1 (accountOf idx) k = (CheckResult.ret ok err, s2))
    (hden : ok = false ∨ err ≠ none) :
    arrayLoop a k (pre ++ idx :: post) s
      = (Step.stop (elementDenied (accountOf idx) err), s2) := by
  rw [arrayLoop_after_authorized a k pre (idx :: post) s s1 hpre]
  simp only [arrayLoop, hchk]
  cases err with
  | some e => cases ok <;> rfl
  | none =>
    cases ok with
    | false => rfl
    | true => simp at hden

/-- The array a-1, b-2, a-3 checked by alice when a denial for tenant b is in
the cache and the oracle authorises tenant a. -/
theorem arrayLoop_stops_at_first_denied_witness :
    authorizedElems (oracleFor ["a".toList]) alice ["a-1".toList]
        (checkAccount (oracleFor ["a".toList]) emptySt "b".toList alice).2
        = some (checkAccount (oracleFor ["a".toList])
            (checkAccount (oracleFor ["a".toList]) emptySt "b".toList alice).2 "a".toList alice).2
      ∧ checkAccount (oracleFor ["a".toList])
          (checkAccount (oracleFor ["a".toList])
            (checkAccount (oracleFor ["a".toList]) emptySt "b".toList alice).2 "a".toList alice).2
          (accountOf "b-2".toList) alice
        = (CheckResult.ret false none,
            (checkAccount (oracleFor ["a".toList])
              (checkAccount (oracleFor ["a".toList])
                (checkAccount (oracleFor ["a".toList]) emptySt "b".toList alice).2
                "a".toList alice).2
              "b".toList alice).2)
      ∧ (false = false ∨ (none : Option Text) ≠ none)
      ∧ arrayLoop (oracleFor ["a".toList]) alice
          (["a-1".toList] ++ "b-2".toList :: ["a-3".toList])
          (checkAccount (oracleFor ["a".toList]) emptySt "b".toList alice).2
        = (Step.stop
            (Outcome.abort 401 "UnauthorizedIndex".toList (ErrMsg.text "b".toList) none),
            (checkAccount (oracleFor ["a".toList])
              (checkAccount (oracleFor ["a".toList])
                (checkAccount (oracleFor ["a".toList]) emptySt "b".toList alice).2
                "a".toList alice).2
              "b".toList alice).2) :=
  ⟨by decide, by decide, Or.inl rfl,
    arrayLoop_stops_at_first_denied (oracleFor ["a".toList]) alice ["a-1".toList]
      ["a-3".toList] "b-2".toList
      (checkAccount (oracleFor ["a".toList]) emptySt "b".toList alice).2
      (checkAccount (oracleFor ["a".toList])
        (checkAccount (oracleFor ["a".toList]) emptySt "b".toList alice).2 "a".toList alice).2
      (checkAccount (oracleFor ["a".toList])
        (checkAccount (oracleFor ["a".toList])
          (checkAccount (oracleFor ["a".toList]) emptySt "b".toList alice).2
          "a".toList alice).2
        "b".toList alice).2
      false none (by decide) (by decide) (Or.inl rfl)⟩

/-- What checkAccount does on a cache miss once the request has been sent. -/
theorem checkAccount_miss (a : Auth) (s : St) (accountId : Text) (k : AccessKey)
    (hmiss : s.cache.Get s.now (cacheKey accountId k) = none)
    (hm : a.Marshal k = none)
    (hn : a.NewRequest (keyCheckURL a accountId) = true) :
    checkAccount a s accountId k
      = match (a.HttpClient s.calls.length (keyCheckURL a accountId) k).1 with
        | DoResult.fail err =>
          (CheckResult.ret false (some err),
            (sentState a s accountId k).store (cacheKey accountId k) false)
        | DoResult.response code =>
          if code = 404 then
            (CheckResult.ret false (some (notFoundError accountId)),
              (sentState a s accountId k).store (cacheKey accountId k) false)
          else if code = 200 then
            (CheckResult.ret true none,
              (sentState a s accountId k).store (cacheKey accountId k) true)
          else
            (CheckResult.ret false (some (statusError code (keyCheckURL a accountId))),
              (sentState a s accountId k).store (cacheKey accountId k) false) := by
  unfold checkAccount checkAccountBody
  simp only [hmiss, hm, hn, if_true]
  rfl

/-- C11. On a cache miss, with the key marshalled and the request built,
checkAccount maps the answer of the oracle as follows: status 200 gives true
without error and stores true; status 404 gives false with the account not
found error and stores false; any other status gives false with the status
error and stores false; a transport failure gives false with that error and
stores false. Whenever checkAccount returns true, the cache held true or the
oracle answered 200. -/
theorem checkAccount_maps_oracle_answer (a : Auth) (s : St) (accountId : Text) (k : AccessKey) :
    (s.cache.Get s.now (cacheKey accountId k) = none → a.Marshal k = none →
      a.NewRequest (keyCheckURL a accountId) = true →
        ((a.HttpClient s.calls.length (keyCheckURL a accountId) k).1 = DoResult.response 200 →
          checkAccount a s accountId k
            = (CheckResult.ret true none,
                (sentState a s accountId k).store (cacheKey accountId k) true))
        ∧ ((a.HttpClient s.calls.length (keyCheckURL a accountId) k).1 = DoResult.response 404 →
          checkAccount a s accountId k
            = (CheckResult.ret false (some (notFoundError accountId)),
                (sentState a s accountId k).store (cacheKey accountId k) false))
        ∧ (∀ code, code ≠ 200 → code ≠ 404 →
          (a.HttpClient s.calls.length (keyCheckURL a accountId) k).1
            = DoResult.response code →
          checkAccount a s accountId k
            = (CheckResult.ret false (some (statusError code (keyCheckURL a accountId))),
                (sentState a s accountId k).store (cacheKey accountId k) false))
        ∧ (∀ err,
          (a.HttpClient s.calls.length (keyCheckURL a accountId) k).1 = DoResult.fail err →
          checkAccount a s accountId k
            = (CheckResult.ret false (some err),
                (sentState a s accountId k).store (cacheKey accountId k) false))
        ∧ (∀ v, List.lookup (cacheKey accountId k)
              ((sentState a s accountId k).store (cacheKey accountId k) v).cache
            = some ⟨v, (sentState a s accountId k).now + DefaultExpiration⟩))
      ∧ (∀ err s1, checkAccount a s accountId k = (CheckResult.ret true err, s1) →
          s.cache.Get s.now (cacheKey accountId k) = some true
            ∨ (s.cache.Get s.now (cacheKey accountId k) = none
              ∧ (a.HttpClient s.calls.length (keyCheckURL a accountId) k).1
                = DoResult.response 200)) := by
  constructor
  · intro hmiss hm hn
    have h := checkAccount_miss a s accountId k hmiss hm hn
    refine ⟨?_, ?_, ?_, ?_, ?_⟩
    · intro hr
      rw [h, hr]
      rfl
    · intro hr
      rw [h, hr]
      rfl
    · intro code h200 h404 hr
      rw [h, hr]
      simp only [if_neg h404, if_neg h200]
    · intro err hr
      rw [h, hr]
    · intro v
      exact Cache.lookup_Set _ _ _ _
  · intro err s1 h
    cases hg : s.cache.Get s.now (cacheKey accountId k) with
    | some b =>
      rw [checkAccount_hit a s accountId k b hg] at h
      cases h
      exact Or.inl rfl
    | none =>
      refine Or.inr ⟨rfl, ?_⟩
      unfold checkAccount checkAccountBody at h
      simp only [hg] at h
      cases hm : a.Marshal k with
      | some e =>
        simp only [hm] at h
        cases h
      | none =>
        simp only [hm] at h
        by_cases hn : a.NewRequest (keyCheckURL a accountId) = true
        · rw [if_pos hn] at h
          cases hr : (a.HttpClient s.calls.length (keyCheckURL a accountId) k).1 with
          | fail e =>
            simp only [hr] at h
            cases h
          | response code =>
            simp only [hr] at h
            by_cases h404 : code = 404
            · rw [if_pos h404] at h
              cases h
            · rw [if_neg h404] at h
              by_cases h200 : code = 200
              · rw [h200]
              · rw [if_neg h200] at h
                cases h
        · rw [if_neg hn] at h
          cases h

/-- The oracle answers 200 for tenant a on an empty cache. -/
theorem checkAccount_maps_oracle_answer_witness :
    emptySt.cache.Get emptySt.now (cacheKey "a".toList alice) = none
      ∧ (oracleFor ["a".toList]).Marshal alice = none
      ∧ (oracleFor ["a".toList]).NewRequest (keyCheckURL (oracleFor ["a".toList]) "a".toList)
        = true
      ∧ ((oracleFor ["a".toList]).HttpClient emptySt.calls.length
          (keyCheckURL (oracleFor ["a".toList]) "a".toList) alice).1 = DoResult.response 200
      ∧ checkAccount (oracleFor ["a".toList]) emptySt "a".toList alice
        = (CheckResult.ret true none,
            (sentState (oracleFor ["a".toList]) emptySt "a".toList alice).store
              (cacheKey "a".toList alice) true) :=
  ⟨by decide, rfl, rfl, by decide,
    ((checkAccount_maps_oracle_answer (oracleFor ["a".toList]) emptySt "a".toList alice).1
      (by decide) rfl rfl).1 (by decide)⟩

/-- The lazy star of `.` before a literal hyphen matches up to the first hyphen
when one can be reached, and fails otherwise. -/
theorem lazyStar_dash_iff (rest : Text) :
    lazyStarAux dot (matchHere [Item.lit '-']) rest
      = if dashReachable rest = true then some (rest.takeWhile (fun c => c != '-') ++ ['-'])
        else none := by
  induction rest with
  | nil => rfl
  | cons x s ih =>
    by_cases hx : x = '-'
    · subst hx
      simp [lazyStarAux, matchHere, dashReachable]
    · have hk : matchHere [Item.lit '-'] (x :: s) = none := by simp [matchHere, hx]
      have htw : (x :: s).takeWhile (fun c => c != '-') = x :: s.takeWhile (fun c => c != '-') := by
        simp [List.takeWhile_cons, hx]
      simp only [lazyStarAux]
      rw [hk, htw, ih]
      by_cases hd : dot x = true
      · by_cases hr : dashReachable s = true
        · simp [dashReachable, hx, hd, hr]
        · simp [dashReachable, hx, hd, hr]
      · simp [dashReachable, hx, hd]

/-- The tenant of an index name is its text before the first hyphen when
accountRxp matches the name, and empty otherwise. -/
theorem accountOf_eq (idx : Text) :
    accountOf idx
      = if hasAccountPrefix idx = true then idx.takeWhile (fun c => c != '-') else [] := by
  cases idx with
  | nil => rfl
  | cons c rest =>
    have hm : matchHere accountRxp.items (c :: rest)
        = if lowerAlnum c = true then
            (lazyStarAux dot (matchHere [Item.lit '-']) rest).map (fun m => c :: m)
          else none := rfl
    have ha : accountRxp.anchored = true := rfl
    unfold accountOf Regexp.FindString Regexp.find
    rw [if_pos ha, hm, lazyStar_dash_iff]
    by_cases hc : lowerAlnum c = true
    · have hne : c ≠ '-' := by
        intro h
        rw [h] at hc
        exact absurd hc (by decide)
      by_cases hr : dashReachable rest = true
      · have hp : hasAccountPrefix (c :: rest) = true := by simp [hasAccountPrefix, hc, hr]
        rw [if_pos hc, if_pos hr, if_pos hp]
        have hsuf : ['-'] <:+ c :: (rest.takeWhile (fun c => c != '-') ++ ['-']) :=
          ⟨c :: rest.takeWhile (fun c => c != '-'), rfl⟩
        simp [TrimSuffix, List.takeWhile_cons, hne, hsuf]
      · have hp : ¬ hasAccountPrefix (c :: rest) = true := by simp [hasAccountPrefix, hc, hr]
        rw [if_pos hc, if_neg hr, if_neg hp]
        rfl
    · have hp : ¬ hasAccountPrefix (c :: rest) = true := by simp [hasAccountPrefix, hc]
      rw [if_neg hc, if_neg hp]
      rfl

/-- A checkAccount call adds its tenant and credential to the log of checks
and nothing else. -/
theorem checkAccount_checks (a : Auth) (s : St) (accountId : Text) (k : AccessKey) :
    (checkAccount a s accountId k).2.checks = s.checks ++ [(accountId, k)] := by
  unfold checkAccount checkAccountBody
  simp only []
  cases s.cache.Get s.now (cacheKey accountId k) with
  | some b => rfl
  | none =>
    simp only []
    cases a.Marshal k with
    | some e => rfl
    | none =>
      simp only []
      by_cases hn : a.NewRequest (keyCheckURL a accountId) = true
      · rw [if_pos hn]
        cases (a.HttpClient s.calls.length (keyCheckURL a accountId) k).1 with
        | fail e => rfl
        | response code =>
          simp only []
          by_cases h404 : code = 404
          · rw [if_pos h404]
            rfl
          · rw [if_neg h404]
            by_cases h200 : code = 200
            · rw [if_pos h200]
              rfl
            · rw [if_neg h200]
              rfl
      · rw [if_neg hn]

/-- The single-reference block checks the tenant of the decoded index name. -/
theorem singleBranch_checks (a : Auth) (k : AccessKey) (ln : Text) (s : St) (idx : IndexSingle)
    (hdec : UnmarshalIndexSingle ln = Except.ok (some idx)) :
    (singleBranch a k ln s).2.checks = s.checks ++ [(accountOf idx.Index, k)] := by
  have hc := checkAccount_checks a s (accountOf idx.Index) k
  unfold singleBranch
  rw [hdec]
  simp only []
  rcases hr : checkAccount a s (accountOf idx.Index) k with ⟨r, s1⟩
  rw [hr] at hc
  cases r with
  | panic => exact hc
  | ret ok err =>
    cases err with
    | some e => cases ok <;> exact hc
    | none =>
      cases ok with
      | true => exact hc
      | false => exact hc

/-- The array loop checks the tenants of the elements in array order, up to
the element at which it stops. -/
theorem arrayLoop_checks (a : Auth) (k : AccessKey) (idxs : List Text) (s : St) :
    ∃ n, (arrayLoop a k idxs s).2.checks
      = s.checks ++ (idxs.take n).map (fun i => (accountOf i, k)) := by
  induction idxs generalizing s with
  | nil => exact ⟨0, by simp [arrayLoop]⟩
  | cons idx rest ih =>
    have hc := checkAccount_checks a s (accountOf idx) k
    simp only [arrayLoop]
    rcases hr : checkAccount a s (accountOf idx) k with ⟨r, s1⟩
    rw [hr] at hc
    simp only [] at hc
    cases r with
    | panic => exact ⟨1, by simp [hc]⟩
    | ret ok err =>
      cases err with
      | some e => cases ok <;> exact ⟨1, by simp [hc]⟩
      | none =>
        cases ok with
        | false => exact ⟨1, by simp [hc]⟩
        | true =>
          obtain ⟨n, hn⟩ := ih s1
          refine ⟨n + 1, ?_⟩
          simp only [hn, hc, List.take_succ_cons, List.map_cons, List.append_assoc,
            List.singleton_append]

/-- C12, counterexample. The index name Acme-logs contains a hyphen, yet the
tenant id handed to the permission check is the empty string, not Acme: the
pattern accountRxp wants a lowercase letter or a digit first. -/
theorem uppercase_index_gets_empty_tenant :
    '-' ∈ "Acme-logs".toList
      ∧ UnmarshalIndexSingle "\x7b\"index\":\"Acme-logs\"\x7d".toList
        = Except.ok (some ⟨"Acme-logs".toList⟩)
      ∧ accountOf "Acme-logs".toList = []
      ∧ (RequestHandler (oracleFor ["Acme".toList])
          (msearch "\x7b\"index\":\"Acme-logs\"\x7d") emptySt).st.checks = [([], alice)] :=
  ⟨by decide, by rfl, by decide, by decide⟩

/-- C12, amended. For a single-reference line whose index name starts with a
lowercase ASCII letter or a digit and has a hyphen after it with no newline in
between, the tenant id handed to the permission check is the text of the index
name before its first hyphen; for any other index name it is the empty string.
The same holds for each element of an index array that the array loop
checks. -/
theorem line_tenant_before_first_hyphen (a : Auth) (k : AccessKey) (ln : Text) (s : St)
    (idx : IndexSingle) (hdec : UnmarshalIndexSingle ln = Except.ok (some idx)) :
    (singleBranch a k ln s).2.checks
        = s.checks ++ [(if hasAccountPrefix idx.Index = true
            then idx.Index.takeWhile (fun c => c != '-') else [], k)]
      ∧ ∀ idxs, ∃ n, (arrayLoop a k idxs s).2.checks
          = s.checks ++ (idxs.take n).map (fun i =>
              (if hasAccountPrefix i = true then i.takeWhile (fun c => c != '-') else [], k)) := by
  constructor
  · rw [singleBranch_checks a k ln s idx hdec, accountOf_eq]
  · intro idxs
    obtain ⟨n, hn⟩ := arrayLoop_checks a k idxs s
    refine ⟨n, ?_⟩
    rw [hn]
    congr 2
    funext i
    rw [accountOf_eq]

/-- The line with index name a-1: the tenant checked is a. -/
theorem line_tenant_before_first_hyphen_witness :
    UnmarshalIndexSingle "\x7b\"index\":\"a-1\"\x7d".toList = Except.ok (some ⟨"a-1".toList⟩)
      ∧ (singleBranch (oracleFor ["a".toList]) alice "\x7b\"index\":\"a-1\"\x7d".toList
          emptySt).2.checks
        = emptySt.checks ++ [(if hasAccountPrefix "a-1".toList = true
            then "a-1".toList.takeWhile (fun c => c != '-') else [], alice)] :=
  ⟨by rfl,
    (line_tenant_before_first_hyphen (oracleFor ["a".toList]) alice
      "\x7b\"index\":\"a-1\"\x7d".toList emptySt ⟨"a-1".toList⟩ (by rfl)).1⟩

/-- A mapping request whose stripped path is a slash and a text with a hyphen
leaves the state of the permission check for the text before that hyphen. -/
theorem mapping_request_st (a : Auth) (req : Request) (s : St) (name key rest : Text)
    (hauth : req.BasicAuth = some (name, key))
    (hget : req.Method = "GET".toList)
    (hmap : mappingRxp.Match req.Path = true)
    (hstrip : TrimPrefix req.Path a.PathPrefix = '/' :: rest)
    (hdash : '-' ∈ rest) :
    (RequestHandler a req s).st
      = (checkAccount a s (rest.takeWhile (fun c => c != '-')) ⟨name, key⟩).2 := by
  have hnl : ∀ c ∈ rest, c ≠ '\n' := by
    intro c hc hcn
    have hin : c ∈ req.Path :=
      mem_of_mem_TrimPrefix req.Path a.PathPrefix c (by rw [hstrip]; exact List.mem_cons_of_mem _ hc)
    have := mapping_no_space req.Path hmap c hin
    rw [hcn] at this
    exact absurd this (by decide)
  have hfind := accountPath_find rest hdash hnl
  have hslice := sliceStr_inner (rest.takeWhile (fun c => c != '-'))
  unfold RequestHandler
  rw [hauth]
  simp only [if_pos hget]
  unfold handleGet
  simp only [if_pos hmap]
  rw [hstrip, hfind, hslice]
  simp only []
  rcases hc : checkAccount a s (rest.takeWhile (fun c => c != '-')) ⟨name, key⟩ with ⟨r, s1⟩
  cases r with
  | panic => rfl
  | ret ok err =>
    cases err with
    | some e => cases ok <;> rfl
    | none => cases ok <;> rfl

/-- C13, counterexample. The index name logs has no hyphen, and a mapping path
can have its hyphen right after the leading slash: in both passes checkAccount
is called with the empty tenant id. -/
theorem empty_tenant_checked :
    (RequestHandler (oracleFor ["a".toList])
        (msearch "\x7b\"index\":\"logs\"\x7d") emptySt).st.checks = [([], alice)]
      ∧ (RequestHandler (oracleFor ["a".toList])
        (msearch "\x7b\"index\":\"logs\"\x7d") emptySt).st.calls
          = [("http://provision/keyCheck/".toList, alice)]
      ∧ (RequestHandler (oracleFor ["a".toList])
        (requestOf "GET" "/-x/_mapping" "") emptySt).st.checks = [([], alice)] := by
  decide

/-- C13, amended. The tenant id handed to checkAccount for a single-reference
line or an element of an index array is the accountRxp match of the index name
without its hyphen, and it is non-empty exactly when the index name starts with
a lowercase ASCII letter or a digit and has a hyphen after it with no newline
in between. For a mapping request whose stripped path is a slash and a text
with a hyphen, it is the text before the first hyphen, non-empty exactly when
the stripped path does not begin with a slash and a hyphen. -/
theorem tenant_nonempty_iff (a : Auth) (k : AccessKey) (s : St) :
    (∀ idx, accountOf idx ≠ [] ↔ hasAccountPrefix idx = true)
      ∧ (∀ ln idx, UnmarshalIndexSingle ln = Except.ok (some idx) →
          (singleBranch a k ln s).2.checks = s.checks ++ [(accountOf idx.Index, k)])
      ∧ (∀ idxs, ∃ n, (arrayLoop a k idxs s).2.checks
          = s.checks ++ (idxs.take n).map (fun i => (accountOf i, k)))
      ∧ (∀ req rest, req.BasicAuth = some (k.Name, k.Key) → req.Method = "GET".toList →
          mappingRxp.Match req.Path = true →
          TrimPrefix req.Path a.PathPrefix = '/' :: rest → '-' ∈ rest →
          (RequestHandler a req s).st.checks
              = s.checks ++ [(rest.takeWhile (fun c => c != '-'), k)]
            ∧ (rest.takeWhile (fun c => c != '-') ≠ [] ↔ rest.head? ≠ some '-')) := by
  refine ⟨?_, ?_, ?_, ?_⟩
  · intro idx
    rw [accountOf_eq]
    cases idx with
    | nil => simp [hasAccountPrefix]
    | cons c rest =>
      by_cases hp : hasAccountPrefix (c :: rest) = true
      · have hc : lowerAlnum c = true := by
          simp only [hasAccountPrefix, Bool.and_eq_true] at hp
          exact hp.1
        have hne : c ≠ '-' := by
          intro h
          rw [h] at hc
          exact absurd hc (by decide)
        simp [hp, List.takeWhile_cons, hne]
      · simp [hp]
  · intro ln idx hdec
    exact singleBranch_checks a k ln s idx hdec
  · intro idxs
    exact arrayLoop_checks a k idxs s
  · intro req rest hauth hget hmap hstrip hdash
    constructor
    · rw [mapping_request_st a req s k.Name k.Key rest hauth hget hmap hstrip hdash]
      exact checkAccount_checks a s _ _
    · cases rest with
      | nil => simp at hdash
      | cons x r =>
        by_cases hx : x = '-'
        · simp [hx]
        · simp [List.takeWhile_cons, hx]

/-- The index name a-1 and the mapping path /tenant42-logs/_mapping. -/
theorem tenant_nonempty_iff_witness :
    hasAccountPrefix "a-1".toList = true
      ∧ accountOf "a-1".toList ≠ []
      ∧ (requestOf "GET" "/tenant42-logs/_mapping" "").BasicAuth = some (alice.Name, alice.Key)
      ∧ (requestOf "GET" "/tenant42-logs/_mapping" "").Method = "GET".toList
      ∧ mappingRxp.Match (requestOf "GET" "/tenant42-logs/_mapping" "").Path = true
      ∧ TrimPrefix (requestOf "GET" "/tenant42-logs/_mapping" "").Path
          (oracleFor ["tenant42".toList]).PathPrefix = '/' :: "tenant42-logs/_mapping".toList
      ∧ '-' ∈ "tenant42-logs/_mapping".toList
      ∧ (RequestHandler (oracleFor ["tenant42".toList])
          (requestOf "GET" "/tenant42-logs/_mapping" "") emptySt).st.checks
        = emptySt.checks
          ++ [("tenant42-logs/_mapping".toList.takeWhile (fun c => c != '-'), alice)] :=
  ⟨by decide,
    ((tenant_nonempty_iff (oracleFor ["a".toList]) alice emptySt).1 "a-1".toList).mpr
      (by decide),
    rfl, rfl, by decide, by decide, by decide,
    ((tenant_nonempty_iff (oracleFor ["tenant42".toList]) alice emptySt).2.2.2
      (requestOf "GET" "/tenant42-logs/_mapping" "") "tenant42-logs/_mapping".toList
      rfl rfl (by decide) (by decide) (by decide)).1⟩

/-- Lines without index field are all skipped. -/
theorem lineLoop_no_index (a : Auth) (k : AccessKey) (lines : List Text) (s : St)
    (hno : ∀ ln ∈ lines, indexRxp.Match ln = false) :
    lineLoop a k lines s = (Outcome.allowed, s) := by
  induction lines with
  | nil => rfl
  | cons ln rest ih =>
    have h1 : indexRxp.Match ln = false := hno ln (List.mem_cons_self _ _)
    have hstep : handleLine a k ln s = (Step.next, s) := by
      unfold handleLine
      simp only [h1, Bool.not_false, if_true]
    simp only [lineLoop, hstep]
    exact ih (fun l hl => hno l (List.mem_cons_of_mem _ hl))

/-- C14. A batch search request with credentials none of whose scanned lines
has an index field (the empty body included) ends in Allowed; the state (cache,
oracle requests, clock) is left as it was. -/
theorem no_index_line_allowed (a : Auth) (req : Request) (s : St) (name key b : Text)
    (hauth : req.BasicAuth = some (name, key))
    (hpost : req.Method = "POST".toList)
    (hpath : TrimPrefix req.Path a.PathPrefix = "/_msearch".toList)
    (hbody : req.Body = Except.ok b)
    (hno : ∀ ln ∈ scanLines b, indexRxp.Match ln = false) :
    (RequestHandler a req s).outcome = Outcome.allowed ∧ (RequestHandler a req s).st = s := by
  rw [handler_post_lines a req s name key b hauth hpost hpath hbody,
    lineLoop_no_index a ⟨name, key⟩ (scanLines b) s hno]
  exact ⟨rfl, rfl⟩

/-- The empty body. -/
theorem no_index_line_allowed_witness :
    (msearch "").BasicAuth = some (alice.Name, alice.Key)
      ∧ (msearch "").Method = "POST".toList
      ∧ TrimPrefix (msearch "").Path (oracleFor []).PathPrefix = "/_msearch".toList
      ∧ (msearch "").Body = Except.ok []
      ∧ (∀ ln ∈ scanLines [], indexRxp.Match ln = false)
      ∧ ((RequestHandler (oracleFor []) (msearch "") emptySt).outcome = Outcome.allowed
        ∧ (RequestHandler (oracleFor []) (msearch "") emptySt).st = emptySt) :=
  ⟨rfl, rfl, by decide, rfl, by decide,
    no_index_line_allowed (oracleFor []) (msearch "") emptySt alice.Name alice.Key [] rfl rfl
      (by decide) rfl (by decide)⟩

/-- C16. When a POST request for the batch search path ends in Allowed, the
body was read in full and the request body left for the next handler is a
buffer holding exactly the bytes read. -/
theorem allowed_body_restored (a : Auth) (req : Request) (s : St)
    (hpost : req.Method = "POST".toList)
    (hpath : TrimPrefix req.Path a.PathPrefix = "/_msearch".toList)
    (hallowed : (RequestHandler a req s).outcome = Outcome.allowed) :
    ∃ b, req.Body = Except.ok b ∧ (RequestHandler a req s).body = BodyState.restored b := by
  have hne : req.Method ≠ "GET".toList := by
    rw [hpost]
    decide
  unfold RequestHandler at hallowed ⊢
  cases hauth : req.BasicAuth with
  | none =>
    rw [hauth] at hallowed
    simp at hallowed
  | some p =>
    rcases p with ⟨name, key⟩
    rw [hauth] at hallowed
    simp only [if_neg hne, if_pos hpost] at hallowed ⊢
    unfold handlePost at hallowed ⊢
    simp only [if_neg (not_not.mpr hpath)] at hallowed ⊢
    cases hb : req.Body with
    | error e =>
      rw [hb] at hallowed
      simp at hallowed
    | ok b => exact ⟨b, rfl, rfl⟩

/-- A body of two lines, the second for the authorised tenant a. -/
theorem allowed_body_restored_witness :
    (msearch "\x7b\x7d\n\x7b\"index\":\"a-1\"\x7d").Method = "POST".toList
      ∧ TrimPrefix (msearch "\x7b\x7d\n\x7b\"index\":\"a-1\"\x7d").Path
          (oracleFor ["a".toList]).PathPrefix = "/_msearch".toList
      ∧ (RequestHandler (oracleFor ["a".toList])
          (msearch "\x7b\x7d\n\x7b\"index\":\"a-1\"\x7d") emptySt).outcome = Outcome.allowed
      ∧ ∃ b, (msearch "\x7b\x7d\n\x7b\"index\":\"a-1\"\x7d").Body = Except.ok b
          ∧ (RequestHandler (oracleFor ["a".toList])
              (msearch "\x7b\x7d\n\x7b\"index\":\"a-1\"\x7d") emptySt).body
            = BodyState.restored b :=
  ⟨rfl, by decide, by decide,
    allowed_body_restored (oracleFor ["a".toList])
      (msearch "\x7b\x7d\n\x7b\"index\":\"a-1\"\x7d") emptySt rfl (by decide) (by decide)⟩

/-- C17. The GET request of alice for /logs/_mapping: the path matches the
mapping pattern, the account path pattern finds nothing because there is no
hyphen, the slice of the empty match from 1 to -1 is out of range and the pass
ends in a panic. -/
theorem mapping_without_hyphen_panics :
    mappingRxp.Match "/logs/_mapping".toList = true
      ∧ accountPathRxp.FindString (TrimPrefix "/logs/_mapping".toList []) = []
      ∧ sliceStr [] 1 (((([] : Text).length : Nat) : Int) - 1) = none
      ∧ (RequestHandler (oracleFor ["logs".toList]) (requestOf "GET" "/logs/_mapping" "")
          emptySt).outcome = Outcome.panic := by
  decide

/-- On a cache miss that reaches the oracle, checkAccount stores a decision in
the state the request left and logs the request. -/
theorem checkAccount_miss_store (a : Auth) (s : St) (accountId : Text) (k : AccessKey)
    (hmiss : s.cache.Get s.now (cacheKey accountId k) = none)
    (hm : a.Marshal k = none)
    (hn : a.NewRequest (keyCheckURL a accountId) = true) :
    ∃ v, (checkAccount a s accountId k).2
      = (sentState a s accountId k).store (cacheKey accountId k) v := by
  rw [checkAccount_miss a s accountId k hmiss hm hn]
  cases (a.HttpClient s.calls.length (keyCheckURL a accountId) k).1 with
  | fail e => exact ⟨false, rfl⟩
  | response code =>
    simp only []
    by_cases h404 : code = 404
    · rw [if_pos h404]
      exact ⟨false, rfl⟩
    · rw [if_neg h404]
      by_cases h200 : code = 200
      · rw [if_pos h200]
        exact ⟨true, rfl⟩
      · rw [if_neg h200]
        exact ⟨false, rfl⟩

/-- Lookups that hit an entry leave the cache and the log of oracle requests
as they were. -/
theorem lookupsAt_hits (a : Auth) (accountId : Text) (k : AccessKey) (it : CacheItem)
    (ts : List Nat) (s : St)
    (hl : List.lookup (cacheKey accountId k) s.cache = some it)
    (hts : ∀ u ∈ ts, it.Expiration = 0 ∨ u ≤ it.Expiration) :
    (lookupsAt a accountId k ts s).cache = s.cache
      ∧ (lookupsAt a accountId k ts s).calls = s.calls := by
  induction ts generalizing s with
  | nil => exact ⟨rfl, rfl⟩
  | cons u ts ih =>
    have hg : ({ s with now := u } : St).cache.Get ({ s with now := u } : St).now
        (cacheKey accountId k) = some it.Object :=
      Cache.Get_of_lookup s.cache u (cacheKey accountId k) it hl (hts u (List.mem_cons_self _ _))
    have hstep := checkAccount_hit a { s with now := u } accountId k it.Object hg
    simp only [lookupsAt, hstep]
    exact ih _ hl (fun v hv => hts v (List.mem_cons_of_mem _ hv))

/-- C15. A decision that checkAccount stored after asking the oracle, at the
time T of the returned state: any number of later lookups for the same tenant
and credential at times up to T plus one minute hit the entry and leave the
cache and the log of oracle requests unchanged; at any time later than T plus
one minute the entry is not found and checkAccount sends a new request to the
oracle. -/
theorem cached_decision_expires (a : Auth) (s s1 : St) (accountId : Text) (k : AccessKey)
    (ok : Bool) (err : Option Text) (ts : List Nat) (t : Nat)
    (hmiss : s.cache.Get s.now (cacheKey accountId k) = none)
    (hm : a.Marshal k = none)
    (hfirst : checkAccount a s accountId k = (CheckResult.ret ok err, s1))
    (hts : ∀ u ∈ ts, u ≤ s1.now + DefaultExpiration)
    (ht : s1.now + DefaultExpiration < t) :
    (lookupsAt a accountId k ts s1).cache = s1.cache
      ∧ (lookupsAt a accountId k ts s1).calls = s1.calls
      ∧ (lookupsAt a accountId k ts s1).cache.Get t (cacheKey accountId k) = none
      ∧ (checkAccount a { lookupsAt a accountId k ts s1 with now := t } accountId k).2.calls
        = s1.calls ++ [(keyCheckURL a accountId, k)] := by
  have hn : a.NewRequest (keyCheckURL a accountId) = true := by
    by_contra hn
    unfold checkAccount checkAccountBody at hfirst
    simp only [hmiss, hm, if_neg hn] at hfirst
    cases hfirst
  obtain ⟨v, hv⟩ := checkAccount_miss_store a s accountId k hmiss hm hn
  rw [hfirst] at hv
  simp only [] at hv
  have hl : List.lookup (cacheKey accountId k) s1.cache
      = some ⟨v, s1.now + DefaultExpiration⟩ := by
    rw [hv]
    exact Cache.lookup_Set _ _ _ _
  obtain ⟨hc, hcalls⟩ := lookupsAt_hits a accountId k ⟨v, s1.now + DefaultExpiration⟩ ts s1 hl
    (fun u hu => Or.inr (hts u hu))
  have hpos : 0 < DefaultExpiration := by decide
  have hget : (lookupsAt a accountId k ts s1).cache.Get t (cacheKey accountId k) = none := by
    rw [hc]
    unfold Cache.Get
    rw [hl]
    have hexp : 0 < s1.now + DefaultExpiration ∧ s1.now + DefaultExpiration < t :=
      ⟨by omega, ht⟩
    simp only [if_pos hexp]
  refine ⟨hc, hcalls, hget, ?_⟩
  obtain ⟨w, hw⟩ := checkAccount_miss_store a
    { lookupsAt a accountId k ts s1 with now := t } accountId k hget hm hn
  rw [hw]
  simp only [St.store, sentState, hcalls]

/-- The denial for tenant b stored after the oracle answered 404, two lookups
within the minute and one a nanosecond after it. -/
theorem cached_decision_expires_witness :
    emptySt.cache.Get emptySt.now (cacheKey "b".toList alice) = none
      ∧ (oracleFor ["a".toList]).Marshal alice = none
      ∧ checkAccount (oracleFor ["a".toList]) emptySt "b".toList alice
        = (CheckResult.ret false (some (notFoundError "b".toList)),
            (checkAccount (oracleFor ["a".toList]) emptySt "b".toList alice).2)
      ∧ (∀ u ∈ [2000000, 60001000000],
          u ≤ (checkAccount (oracleFor ["a".toList]) emptySt "b".toList alice).2.now
            + DefaultExpiration)
      ∧ (checkAccount (oracleFor ["a".toList]) emptySt "b".toList alice).2.now
          + DefaultExpiration < 60001000001
      ∧ ((lookupsAt (oracleFor ["a".toList]) "b".toList alice [2000000, 60001000000]
            (checkAccount (oracleFor ["a".toList]) emptySt "b".toList alice).2).cache
          = (checkAccount (oracleFor ["a".toList]) emptySt "b".toList alice).2.cache
        ∧ (lookupsAt (oracleFor ["a".toList]) "b".toList alice [2000000, 60001000000]
            (checkAccount (oracleFor ["a".toList]) emptySt "b".toList alice).2).calls
          = (checkAccount (oracleFor ["a".toList]) emptySt "b".toList alice).2.calls
        ∧ (lookupsAt (oracleFor ["a".toList]) "b".toList alice [2000000, 60001000000]
            (checkAccount (oracleFor ["a".toList]) emptySt "b".toList alice).2).cache.Get
            60001000001 (cacheKey "b".toList alice) = none
        ∧ (checkAccount (oracleFor ["a".toList])
            { lookupsAt (oracleFor ["a".toList]) "b".toList alice [2000000, 60001000000]
                (checkAccount (oracleFor ["a".toList]) emptySt "b".toList alice).2 with
              now := 60001000001 } "b".toList alice).2.calls
          = (checkAccount (oracleFor ["a".toList]) emptySt "b".toList alice).2.calls
            ++ [(keyCheckURL (oracleFor ["a".toList]) "b".toList, alice)]) :=
  ⟨by decide, rfl, by decide, by decide, by decide,
    cached_decision_expires (oracleFor ["a".toList]) emptySt
      (checkAccount (oracleFor ["a".toList]) emptySt "b".toList alice).2 "b".toList alice false
      (some (notFoundError "b".toList)) [2000000, 60001000000] 60001000001
      (by decide) rfl (by decide) (by decide) (by decide)⟩

/-- A text without newline in front of a newline is the first piece of the
body. -/
theorem splitLines_append_newline (l rest : Text) (hnl : '\n' ∉ l) :
    splitLines (l ++ '\n' :: rest) = l :: splitLines rest := by
  induction l with
  | nil => simp [splitLines]
  | cons c l ih =>
    have hc : c ≠ '\n' := fun h => hnl (h ▸ List.mem_cons_self _ _)
    have hl : '\n' ∉ l := fun h => hnl (List.mem_cons_of_mem _ h)
    rw [List.cons_append, splitLines, if_neg hc, ih hl]

/-- A run of n spaces has n bytes. -/
theorem byteSize_replicate_space (n : Nat) : byteSize (List.replicate n ' ') = n := by
  induction n with
  | zero => rfl
  | succ n ih =>
    have h1 : byteLen ' ' = 1 := by decide
    unfold byteSize at ih ⊢
    simp only [List.replicate_succ, List.map_cons, List.sum_cons, h1, ih]
    omega

/-- When the first line of the body does not fit the scanner buffer, the scan
yields no line at all. -/
theorem scanLines_long_first (l rest : Text) (hnl : '\n' ∉ l)
    (hlong : MaxScanTokenSize ≤ byteSize l) : scanLines (l ++ '\n' :: rest) = [] := by
  have hfit : fitsBuffer l = false := by
    unfold fitsBuffer
    simp only [decide_eq_false_iff_not]
    omega
  unfold scanLines
  rw [splitLines_append_newline l rest hnl]
  simp [List.takeWhile_cons, hfit]

/-- C18. The body of two lines, 65536 spaces and then a single-reference line
for tenant b, which the oracle does not know: split at the newline the body
has both lines, but the scan stops at the first one, the loop sees no line and
the pass ends in Allowed without any permission check, while the second line
on its own is denied. -/
theorem long_line_ends_scan :
    splitLines longLineBody
        = [List.replicate 65536 ' ', "\x7b\"index\":\"b-1\"\x7d".toList]
      ∧ scanLines longLineBody = []
      ∧ (RequestHandler (oracleFor []) (msearchBytes longLineBody) emptySt).outcome
        = Outcome.allowed
      ∧ (RequestHandler (oracleFor []) (msearchBytes longLineBody) emptySt).st = emptySt
      ∧ (RequestHandler (oracleFor []) (msearch "\x7b\"index\":\"b-1\"\x7d") emptySt).outcome
        = lookupError (notFoundError "b".toList) := by
  have hnl : '\n' ∉ List.replicate 65536 ' ' := by
    intro h
    exact absurd (List.eq_of_mem_replicate h) (by decide)
  have hscan : scanLines longLineBody = [] :=
    scanLines_long_first (List.replicate 65536 ' ') _ hnl
      (by rw [byteSize_replicate_space]; decide)
  have hres := handler_post_lines (oracleFor []) (msearchBytes longLineBody) emptySt
    alice.Name alice.Key longLineBody rfl rfl (by decide) rfl
  refine ⟨?_, hscan, ?_, ?_, by decide⟩
  · unfold longLineBody
    rw [splitLines_append_newline _ _ hnl]
    congr 1
  · rw [hres, hscan]
    rfl
  · rw [hres, hscan]
    rfl

/-- A non-empty run of the class before a text the continuation matches is
matched by the greedy plus. -/
theorem greedyPlus_of_run (p : Char → Bool) (k : Text → Option Text) (run b : Text)
    (hne : run ≠ []) (hall : ∀ c ∈ run, p c = true) (hk : (k b).isSome = true) :
    (greedyPlusAux p k (run ++ b)).isSome = true := by
  induction run with
  | nil => exact absurd rfl hne
  | cons x run ih =>
    have hx : p x = true := hall x (List.mem_cons_self _ _)
    simp only [List.cons_append, greedyPlusAux, hx, if_true]
    cases hrec : greedyPlusAux p k (run ++ b) with
    | some m => rfl
    | none =>
      cases run with
      | nil =>
        simp only [List.nil_append] at hrec ⊢
        show (Option.map (fun m => x :: m) (k b)).isSome = true
        rw [Option.isSome_map']
        exact hk
      | cons y run =>
        have := ih (by simp) (fun c hc => hall c (List.mem_cons_of_mem _ hc))
        rw [hrec] at this
        exact absurd this (by simp)

/-- A slash, a non-empty text without whitespace and /_mapping match the
mapping pattern. -/
theorem mapping_match_of_run (run : Text) (hne : run ≠ [])
    (hall : ∀ c ∈ run, nonSpace c = true) :
    mappingRxp.Match ('/' :: (run ++ "/_mapping".toList)) = true := by
  have hk : (matchHere ("/_mapping".toList.map Item.lit ++ [Item.eol])
      "/_mapping".toList).isSome = true := by decide
  have hg := greedyPlus_of_run nonSpace _ run "/_mapping".toList hne hall hk
  have hm : matchHere mappingRxp.items ('/' :: (run ++ "/_mapping".toList))
      = (greedyPlusAux nonSpace (matchHere ("/_mapping".toList.map Item.lit ++ [Item.eol]))
          (run ++ "/_mapping".toList)).map (fun m => '/' :: m) := rfl
  have ha : mappingRxp.anchored = true := rfl
  unfold Regexp.Match Regexp.find
  rw [if_pos ha, hm, Option.isSome_map']
  exact hg

/-- TrimPrefix removes a leading copy of the prefix. -/
theorem TrimPrefix_append (p r : Text) : TrimPrefix (p ++ r) p = r := by
  have hp : p.isPrefixOf (p ++ r) = true :=
    List.isPrefixOf_iff_prefix.mpr (List.prefix_append p r)
  unfold TrimPrefix
  rw [if_pos hp, List.drop_left]

/-- The text before the first hyphen of a segment with a hyphen does not
depend on what follows the segment. -/
theorem takeWhile_dash_append (seg x : Text) (hd : '-' ∈ seg) :
    (seg ++ x).takeWhile (fun c => c != '-') = seg.takeWhile (fun c => c != '-') := by
  induction seg with
  | nil => simp at hd
  | cons c seg ih =>
    by_cases hc : c = '-'
    · simp [List.takeWhile_cons, hc]
    · have hd1 : '-' ∈ seg := by
        rcases List.mem_cons.mp hd with h | h
        · exact absurd h.symm hc
        · exact h
      simp [List.takeWhile_cons, hc, ih hd1]

/-- C19, counterexample. With the path prefix "/e s", which contains a space,
the GET request for the prefix, a slash, a-1 and /_mapping is not classified
as a mapping request: it is aborted with 401 NonMappingGetRequest and no
permission check is made. -/
theorem spaced_prefix_not_mapping :
    mappingRxp.Match "/e s/a-1/_mapping".toList = false
      ∧ (RequestHandler (oracleWithPrefix "/e s".toList ["a".toList])
          (requestOf "GET" "/e s/a-1/_mapping" "") emptySt).outcome
        = Outcome.abort 401 "NonMappingGetRequest".toList
            (ErrMsg.text "/e s/a-1/_mapping".toList) none
      ∧ (RequestHandler (oracleWithPrefix "/e s".toList ["a".toList])
          (requestOf "GET" "/e s/a-1/_mapping" "") emptySt).st.checks = [] := by
  decide

/-- C19, amended. For a path prefix that is empty, or starts with a slash and
has no whitespace, and a resource segment with a hyphen and no whitespace, the
GET request with credentials for the prefix, a slash, the segment and /_mapping
matches the mapping pattern, and the one tenant id handed to the permission
check is the text of the segment before its first hyphen. -/
theorem prefixed_mapping_tenant (a : Auth) (req : Request) (s : St) (name key seg : Text)
    (hauth : req.BasicAuth = some (name, key))
    (hget : req.Method = "GET".toList)
    (hp : a.PathPrefix = [] ∨ (∃ p1, a.PathPrefix = '/' :: p1 ∧ ∀ c ∈ p1, nonSpace c = true))
    (hdash : '-' ∈ seg)
    (hns : ∀ c ∈ seg, nonSpace c = true)
    (hpath : req.Path = a.PathPrefix ++ '/' :: (seg ++ "/_mapping".toList)) :
    mappingRxp.Match req.Path = true
      ∧ (RequestHandler a req s).st.checks
        = s.checks ++ [(seg.takeWhile (fun c => c != '-'), ⟨name, key⟩)] := by
  have hsegne : seg ≠ [] := by
    intro h
    rw [h] at hdash
    simp at hdash
  have hmap : mappingRxp.Match req.Path = true := by
    rw [hpath]
    rcases hp with h0 | ⟨p1, h1, hall⟩
    · rw [h0, List.nil_append]
      exact mapping_match_of_run seg hsegne hns
    · rw [h1]
      have := mapping_match_of_run (p1 ++ '/' :: seg) (by simp) (by
        intro c hc
        rcases List.mem_append.mp hc with h | h
        · exact hall c h
        · rcases List.mem_cons.mp h with h2 | h2
          · rw [h2]; decide
          · exact hns c h2)
      simpa using this
  have hstrip : TrimPrefix req.Path a.PathPrefix = '/' :: (seg ++ "/_mapping".toList) := by
    rw [hpath, TrimPrefix_append]
  have hd : '-' ∈ seg ++ "/_mapping".toList := List.mem_append_left _ hdash
  refine ⟨hmap, ?_⟩
  rw [mapping_request_st a req s name key _ hauth hget hmap hstrip hd,
    checkAccount_checks, takeWhile_dash_append seg _ hdash]

/-- The prefix /es and the segment tenant42-logs. -/
theorem prefixed_mapping_tenant_witness :
    (requestOf "GET" "/es/tenant42-logs/_mapping" "").BasicAuth = some (alice.Name, alice.Key)
      ∧ (requestOf "GET" "/es/tenant42-logs/_mapping" "").Method = "GET".toList
      ∧ ((oracleWithPrefix "/es".toList ["tenant42".toList]).PathPrefix = []
        ∨ (∃ p1, (oracleWithPrefix "/es".toList ["tenant42".toList]).PathPrefix = '/' :: p1
            ∧ ∀ c ∈ p1, nonSpace c = true))
      ∧ '-' ∈ "tenant42-logs".toList
      ∧ (∀ c ∈ "tenant42-logs".toList, nonSpace c = true)
      ∧ (requestOf "GET" "/es/tenant42-logs/_mapping" "").Path
        = (oracleWithPrefix "/es".toList ["tenant42".toList]).PathPrefix
          ++ '/' :: ("tenant42-logs".toList ++ "/_mapping".toList)
      ∧ (mappingRxp.Match (requestOf "GET" "/es/tenant42-logs/_mapping" "").Path = true
        ∧ (RequestHandler (oracleWithPrefix "/es".toList ["tenant42".toList])
            (requestOf "GET" "/es/tenant42-logs/_mapping" "") emptySt).st.checks
          = emptySt.checks
            ++ [("tenant42-logs".toList.takeWhile (fun c => c != '-'),
                ⟨alice.Name, alice.Key⟩)]) :=
  ⟨rfl, rfl, Or.inr ⟨"es".toList, rfl, by decide⟩, by decide, by decide, by decide,
    prefixed_mapping_tenant (oracleWithPrefix "/es".toList ["tenant42".toList])
      (requestOf "GET" "/es/tenant42-logs/_mapping" "") emptySt alice.Name alice.Key
      "tenant42-logs".toList rfl rfl (Or.inr ⟨"es".toList, rfl, by decide⟩) (by decide)
      (by decide) (by decide)⟩

end Grape
